import Mathlib

/-!
Verification of the scene-description conversion pipeline
(`convertmonkey.py`, `make_bunny_scene.py`, `make_bunnyetc_scene.py`,
`make_dragon_scene.py`, `scenes/scene_from_blend.py`).

The development shallowly embeds the Python source:
* vectors and quaternions become structures over a commutative ring
  (the scripts use Python floats; claims are about exact values, so the
  embedding uses `ℚ` and `ℝ`),
* the OBJ parse loop becomes a fold over lines (lines are `List Char`,
  `str.split` is modelled by `pySplit`, `float` and `int` by `pyFloat`
  and `pyInt`, Python exceptions by `Except PyError`),
* the two vector-compaction regexes of `scene_from_blend.py` become a
  deterministic matcher `matchVec` together with a leftmost,
  non-overlapping substitution `subM` (the behaviour of `re.sub`).
-/

/-! ## Vectors and quaternions (`scenes/scene_from_blend.py`) -/

/-- A 3-component vector.  The scripts use Python lists `[x, y, z]`. -/
@[ext] structure Vec3 (α : Type) where
  x : α
  y : α
  z : α

deriving DecidableEq, Repr

/-- A quaternion `[w, x, y, z]` as used by `scene_from_blend.py`
(Blender's `rotation_quaternion` component order). -/
@[ext] structure Quat (α : Type) where
  w : α
  x : α
  y : α
  z : α

deriving DecidableEq, Repr

/-- `xzy_to_xyz` from `scenes/scene_from_blend.py` line 23-24:
`return [values[0], values[2], values[1]]`. -/
def xzy_to_xyz {α : Type} (values : Vec3 α) : Vec3 α :=
  ⟨values.x, values.z, values.y⟩

/-- `add_vec` from `scenes/scene_from_blend.py` line 27-28:
componentwise sum of two 3-vectors. -/
def add_vec {α : Type} [Add α] (a b : Vec3 α) : Vec3 α :=
  ⟨a.x + b.x, a.y + b.y, a.z + b.z⟩

/-- The first-coordinate negation applied inline by the OBJ parse loops
(`convertmonkey.py` line 10 and the same line of the other scripts):
`[-float(tokens[1]), float(tokens[2]), float(tokens[3])]` negates the
first parsed coordinate.  As a coordinate transform it is
`v ↦ (-x, y, z)`. -/
def vertexNegation {α : Type} [Neg α] (v : Vec3 α) : Vec3 α :=
  ⟨-v.x, v.y, v.z⟩

/-- `multiply_quats` from `scenes/scene_from_blend.py` lines 31-36,
transcribed sign for sign:
```
w = a[0]*b[0] - a[1]*b[1] - a[2]*b[2] - a[3]*b[3]
x = a[0]*b[1] + a[1]*b[0] - a[2]*b[3] + a[3]*b[2]
y = a[0]*b[2] + a[1]*b[3] + a[2]*b[0] - a[3]*b[1]
z = a[0]*b[3] - a[1]*b[2] + a[2]*b[1] + a[3]*b[0]
```
Note the cross-product terms carry the opposite sign from the Hamilton
product; this function is the Hamilton product with its arguments
swapped. -/
def multiply_quats {α : Type} [CommRing α] (a b : Quat α) : Quat α :=
  ⟨a.w * b.w - a.x * b.x - a.y * b.y - a.z * b.z,
   a.w * b.x + a.x * b.w - a.y * b.z + a.z * b.y,
   a.w * b.y + a.x * b.z + a.y * b.w - a.z * b.x,
   a.w * b.z - a.x * b.y + a.y * b.x + a.z * b.w⟩

/-- `rotate_quat` from `scenes/scene_from_blend.py` lines 39-42:
```
inv_quat = [quat[0]] + [-x for x in quat[1:4]]
rotated = multiply_quats(inv_quat, multiply_quats([0] + vec, quat))
return rotated[-3:]
```
-/
def rotate_quat {α : Type} [CommRing α] (vec : Vec3 α) (quat : Quat α) : Vec3 α :=
  let inv_quat : Quat α := ⟨quat.w, -quat.x, -quat.y, -quat.z⟩
  let rotated := multiply_quats inv_quat (multiply_quats ⟨0, vec.x, vec.y, vec.z⟩ quat)
  ⟨rotated.x, rotated.y, rotated.z⟩

/-- The standard Hamilton quaternion product.  This is the reference
multiplication under which a Blender orientation quaternion `q` acts on
a vector `v` as the sandwich `q * (0,v) * conj q`; it is stated here to
compare the source's `multiply_quats` against the convention the spec
speaks about. -/
def hamiltonMul {α : Type} [CommRing α] (a b : Quat α) : Quat α :=
  ⟨a.w * b.w - a.x * b.x - a.y * b.y - a.z * b.z,
   a.w * b.x + a.x * b.w + a.y * b.z - a.z * b.y,
   a.w * b.y - a.x * b.z + a.y * b.w + a.z * b.x,
   a.w * b.z + a.x * b.y - a.y * b.x + a.z * b.w⟩

/-- Quaternion conjugate: negate the vector part (spec glossary). -/
def conjQuat {α : Type} [CommRing α] (q : Quat α) : Quat α :=
  ⟨q.w, -q.x, -q.y, -q.z⟩

/-- Rotation of a vector by the orientation a quaternion represents, in
the standard (Hamilton, Blender) convention: the vector part of
`q * (0,v) * conj q`.  For a unit quaternion this is the rotation `q`
represents; rotation by the inverse orientation is
`hamiltonRotate (conjQuat q) v`. -/
def hamiltonRotate {α : Type} [CommRing α] (q : Quat α) (v : Vec3 α) : Vec3 α :=
  let r := hamiltonMul (hamiltonMul q ⟨0, v.x, v.y, v.z⟩) (conjQuat q)
  ⟨r.x, r.y, r.z⟩

/-- The identity quaternion `w=1, x=y=z=0`. -/
def idQuat {α : Type} [CommRing α] : Quat α := ⟨1, 0, 0, 0⟩

/-! ## Camera derivation (`scenes/scene_from_blend.py` lines 48-60)

The script computes
```
origin = xzy_to_xyz(scene.camera.location[:3])
look_at = add_vec(origin, xzy_to_xyz(rotate_quat([0, 0, -1], camera_quat)))
up = xzy_to_xyz(rotate_quat([0, 1, 0], camera_quat))
field_of_view = math.degrees(scene.camera.data.angle)
```
The coordinate transform is fixed to `xzy_to_xyz` in the source; the
spec's claims quantify over the configured `CoordinateTransform`, so the
embedding takes the transform `T` as a parameter and the source
corresponds to `T = xzy_to_xyz`. -/

/-- The camera entity written into the scene document. -/
@[ext] structure CameraData where
  origin : Vec3 ℝ
  look_at : Vec3 ℝ
  up : Vec3 ℝ
  field_of_view : ℝ
  film_dimensions : ℤ × ℤ

/-- `math.degrees`: radians to degrees. -/
noncomputable def degreesOf (x : ℝ) : ℝ := x * 180 / Real.pi

/-- Camera derivation of `scenes/scene_from_blend.py` lines 48-60 with
the coordinate transform `T` as the configured parameter (the source
fixes `T = xzy_to_xyz`). -/
noncomputable def deriveCamera (T : Vec3 ℝ → Vec3 ℝ) (position : Vec3 ℝ) (quat : Quat ℝ)
    (lensAngle : ℝ) (film : ℤ × ℤ) : CameraData :=
  let origin := T position
  { origin := origin
    look_at := add_vec origin (T (rotate_quat ⟨0, 0, -1⟩ quat))
    up := T (rotate_quat ⟨0, 1, 0⟩ quat)
    field_of_view := degreesOf lensAngle
    film_dimensions := film }

/-! ## Defaults for missing scene data (`scenes/scene_from_blend.py`)

Lines 62-65: `environment = [0.8] * 3` unless the world node tree has a
`Background` node, in which case its first input is used.
Lines 91-95: `color = [0.5] * 3` unless the object's first material has
a `Diffuse BSDF` node, in which case its first input is used.
The Blender node lookups are external collaborators; they are embedded
as an `Option` argument (`none` = no usable input). -/

/-- Background color with the source's default `[0.8] * 3`. -/
def getBackgroundColor (background : Option (Vec3 ℚ)) : Vec3 ℚ :=
  match background with
  | some c => c
  | none => ⟨4/5, 4/5, 4/5⟩

/-- First diffuse color with the source's default `[0.5] * 3`. -/
def getPrimaryDiffuseColor (diffuse : Option (Vec3 ℚ)) : Vec3 ℚ :=
  match diffuse with
  | some c => c
  | none => ⟨1/2, 1/2, 1/2⟩

/-- The "neutral mid-gray" `(0.5, 0.5, 0.5)` named by the spec. -/
def specMidGray : Vec3 ℚ := ⟨1/2, 1/2, 1/2⟩

/-! ## The OBJ parse loop (`convertmonkey.py` lines 7-12; identical in
`make_bunny_scene.py`, `make_bunnyetc_scene.py`, `make_dragon_scene.py`)

```
for line in file:
    tokens = line.split()
    if tokens[0] == "v":
        vertices.append([-float(tokens[1]), float(tokens[2]), float(tokens[3])])
    elif tokens[0] == "f":
        indices.append([int(token) - 1 for token in tokens[1:4]])
```

Lines are embedded as `List Char`.  `str.split()` (split on runs of
whitespace, dropping empty pieces) is `pySplit`.  `float` and `int`
are `pyFloat` and `pyInt`, embedded on the grammar the inputs exercise
(optional sign, digits, optional fraction and exponent for `float`;
Python's additional forms such as `inf`, `nan` or underscores are
outside the modelled subset and return `none`).  Python exceptions
become `Except PyError`: `tokens[0]` on an empty token list raises
`IndexError`, a failed numeric conversion raises `ValueError`. -/

/-- Python exceptions raised by the parse loop. -/
inductive PyError where
  | indexError
  | valueError

deriving DecidableEq, Repr

/-- Whitespace recognized by Python's `str.split()` (the forms that can
occur in a text line). -/
def isPyWS (c : Char) : Bool :=
  c = ' ' || c = '\t' || c = '\n' || c = '\r'

/-- Helper for `pySplit`: accumulate the current token. -/
def pySplitAux : List Char → List Char → List (List Char)
  | acc, [] => if acc.isEmpty then [] else [acc]
  | acc, ch :: cs =>
    if isPyWS ch then
      if acc.isEmpty then pySplitAux [] cs else acc :: pySplitAux [] cs
    else pySplitAux (acc ++ [ch]) cs

/-- `line.split()`: split on runs of whitespace, no empty tokens. -/
def pySplit (line : List Char) : List (List Char) :=
  pySplitAux [] line

/-- Value of a digit string, most significant digit first. -/
def digitsToNat (ds : List Char) : Nat :=
  ds.foldl (fun n c => 10 * n + (c.toNat - '0'.toNat)) 0

/-- Python `int(token)` on a whitespace-free token: optional sign, then
one or more digits; anything else raises `ValueError` (`none`). -/
def pyInt (t : List Char) : Option ℤ :=
  match t with
  | '-' :: ds =>
    if !ds.isEmpty && ds.all Char.isDigit then some (-(digitsToNat ds : ℤ)) else none
  | '+' :: ds =>
    if !ds.isEmpty && ds.all Char.isDigit then some ((digitsToNat ds : ℤ)) else none
  | ds =>
    if !ds.isEmpty && ds.all Char.isDigit then some ((digitsToNat ds : ℤ)) else none

/-- Python `float(token)` on a whitespace-free token, as an exact
rational: optional sign, a mantissa `digits [. digits]` or `. digits`
or `digits .`, and an optional exponent `e[sign]digits`. -/
def pyFloat (t : List Char) : Option ℚ :=
  let signAndRest : Bool × List Char :=
    match t with
    | '-' :: r => (true, r)
    | '+' :: r => (false, r)
    | _ => (false, t)
  let neg := signAndRest.1
  let t1 := signAndRest.2
  let ds := t1.takeWhile Char.isDigit
  let r1 := t1.dropWhile Char.isDigit
  let mantissa : Option (ℚ × List Char) :=
    match r1 with
    | '.' :: r2 =>
      let fs := r2.takeWhile Char.isDigit
      let r3 := r2.dropWhile Char.isDigit
      if ds.isEmpty && fs.isEmpty then none
      else if fs.isEmpty then some (((digitsToNat ds : ℤ) : ℚ), r3)
      else some (((digitsToNat ds : ℤ) : ℚ) +
        ((digitsToNat fs : ℤ) : ℚ) / (10 : ℚ) ^ fs.length, r3)
    | _ => if ds.isEmpty then none else some (((digitsToNat ds : ℤ) : ℚ), r1)
  match mantissa with
  | none => none
  | some (m, rest) =>
    let sm := if neg then -m else m
    match rest with
    | [] => some sm
    | e :: r4 =>
      if e = 'e' || e = 'E' then
        let esignAndRest : Bool × List Char :=
          match r4 with
          | '-' :: r5 => (true, r5)
          | '+' :: r5 => (false, r5)
          | _ => (false, r4)
        let es := esignAndRest.2.takeWhile Char.isDigit
        let r6 := esignAndRest.2.dropWhile Char.isDigit
        if es.isEmpty || !r6.isEmpty then none
        else if esignAndRest.1 then some (sm / (10 : ℚ) ^ digitsToNat es)
        else some (sm * (10 : ℚ) ^ digitsToNat es)
      else none

/-- The mesh accumulated by a parse loop: `vertices` and `indices`. -/
structure Mesh where
  vertices : List (Vec3 ℚ)
  faces : List (List ℤ)

deriving DecidableEq, Repr

/-- The empty accumulators `vertices = []`, `indices = []`. -/
def initMesh : Mesh := ⟨[], []⟩

/-- `[-float(tokens[1]), float(tokens[2]), float(tokens[3])]` applied to
`tokens[1:]`, with Python's evaluation order: a missing token raises
`IndexError`, a failing conversion raises `ValueError`.  The first
coordinate is negated by the source. -/
def parseVertexTokens : List (List Char) → Except PyError (Vec3 ℚ)
  | [] => .error .indexError
  | t1 :: r1 =>
    match pyFloat t1 with
    | none => .error .valueError
    | some x =>
      match r1 with
      | [] => .error .indexError
      | t2 :: r2 =>
        match pyFloat t2 with
        | none => .error .valueError
        | some y =>
          match r2 with
          | [] => .error .indexError
          | t3 :: _ =>
            match pyFloat t3 with
            | none => .error .valueError
            | some z => .ok ⟨-x, y, z⟩

/-- `[int(token) - 1 for token in ts]`: every token converted with
`int` and decremented, `none` when a conversion raises `ValueError`. -/
def faceIndices : List (List Char) → Option (List ℤ)
  | [] => some []
  | t :: ts =>
    match pyInt t with
    | none => none
    | some z =>
      match faceIndices ts with
      | none => none
      | some zs => some ((z - 1) :: zs)

/-- One iteration of the parse loop on one line. -/
def parseLine (m : Mesh) (line : List Char) : Except PyError Mesh :=
  match pySplit line with
  | [] => .error .indexError
  | t :: rest =>
    if t = ['v'] then
      match parseVertexTokens rest with
      | .error e => .error e
      | .ok v => .ok ⟨m.vertices ++ [v], m.faces⟩
    else if t = ['f'] then
      match faceIndices (rest.take 3) with
      | none => .error .valueError
      | some idxs => .ok ⟨m.vertices, m.faces ++ [idxs]⟩
    else .ok m

/-- The whole parse loop over the lines of the input. -/
def parseLines (m : Mesh) : List (List Char) → Except PyError Mesh
  | [] => .ok m
  | l :: ls =>
    match parseLine m l with
    | .error e => .error e
    | .ok m2 => parseLines m2 ls

/-- Number of `v` records among the input lines. -/
def countV (lines : List (List Char)) : Nat :=
  lines.countP (fun l => (pySplit l).head? == some ['v'])

/-- Number of `f` records among the input lines. -/
def countF (lines : List (List Char)) : Nat :=
  lines.countP (fun l => (pySplit l).head? == some ['f'])

/-- `true` on `Except.ok`. -/
def isOkE (r : Except PyError Mesh) : Bool :=
  match r with
  | .ok _ => true
  | .error _ => false

deriving instance DecidableEq for Except

/-- A face value produced by some `f` record among the input lines. -/
def faceFromLines (lines : List (List Char)) (f : List ℤ) : Prop :=
  ∃ l ∈ lines, (pySplit l).head? = some ['f'] ∧
    faceIndices ((pySplit l).tail.take 3) = some f

/-! ## The vector-compaction pass (`scenes/scene_from_blend.py` lines 112-117)

```
number_pattern = "-?[0-9]+(?:\.[0-9]+)?"
double_pattern = "\[\n *({0}),\n *({0})\n *\]".format(number_pattern)
triple_pattern = "\[\n *({0}),\n *({0}),\n *({0})\n *\]".format(number_pattern)
scene_string = re.sub(double_pattern, r"[\1, \2]", scene_string)
scene_string = re.sub(triple_pattern, r"[\1, \2, \3]", scene_string)
```

In these patterns every quantified piece (`-?`, `[0-9]+`, `(?:…)?`,
` *`) is followed by a character it can never match (a comma, a dot
with mandatory digit, a newline, a closing bracket), so the regex
engine's greedy backtracking search is equivalent to deterministic
greedy matching with no backtracking.  `matchNum` matches
`number_pattern`, `matchGroups k` the `k` groups `" *(num)"` separated
by `",\n"` and closed by `"\n"`, and `matchVec k` a whole `k`-vector
pattern, returning the replacement text (the captured numerals joined
by `", "` inside brackets, exactly the `r"[\1, \2]"` templates) and the
rest of the input after the match.  `subF`/`subM` perform `re.sub`'s
leftmost, non-overlapping scan with resumption after each
replacement. -/

/-- The mantissa part `[0-9]+(?:\.[0-9]+)?` of `number_pattern`,
matched greedily; returns the matched text and the rest. -/
def matchNumCore (l : List Char) : Option (List Char × List Char) :=
  let ds := l.takeWhile Char.isDigit
  let r1 := l.dropWhile Char.isDigit
  if ds.isEmpty then none
  else if r1.head? = some '.' then
    let fs := r1.tail.takeWhile Char.isDigit
    let r3 := r1.tail.dropWhile Char.isDigit
    if fs.isEmpty then some (ds, r1) else some (ds ++ '.' :: fs, r3)
  else some (ds, r1)

/-- `number_pattern = -?[0-9]+(?:\.[0-9]+)?`, matched greedily. -/
def matchNum (l : List Char) : Option (List Char × List Char) :=
  if l.head? = some '-' then
    match matchNumCore l.tail with
    | some (n, rest) => some ('-' :: n, rest)
    | none => none
  else matchNumCore l

/-- Drop the leading run of spaces (the pattern piece `" *"`). -/
def dropSp (l : List Char) : List Char := l.dropWhile (· = ' ')

/-- Leading run of spaces. -/
def takeSp (l : List Char) : List Char := l.takeWhile (· = ' ')

/-- The `k` capture groups of a compaction pattern after the opening
`"[\n"`: each group is `" *(num)"`, the first `k-1` are followed by
`",\n"` and the last one by `"\n"`. -/
def matchGroups : Nat → List Char → Option (List (List Char) × List Char)
  | 0, _ => none
  | 1, l =>
    match matchNum (dropSp l) with
    | none => none
    | some (n, r) =>
      if r.head? = some '\n' then some ([n], r.tail) else none
  | k + 2, l =>
    match matchNum (dropSp l) with
    | none => none
    | some (n, r) =>
      if r.head? = some ',' ∧ r.tail.head? = some '\n' then
        match matchGroups (k + 1) r.tail.tail with
        | none => none
        | some (ns, r3) => some (n :: ns, r3)
      else none

/-- The captured numerals joined by `", "` (the `r"[\1, \2]"` and
`r"[\1, \2, \3]"` replacement templates without the brackets). -/
def joinNums : List (List Char) → List Char
  | [] => []
  | [n] => n
  | n :: ns => n ++ ',' :: ' ' :: joinNums ns

/-- Replacement text for a matched `k`-vector. -/
def mkRepl (ns : List (List Char)) : List Char :=
  '[' :: joinNums ns ++ [']']

/-- Match one compaction pattern (`k = 2` for `double_pattern`,
`k = 3` for `triple_pattern`) at the head of the input: `"[\n"`, the
`k` groups, then `" *]"`.  On success returns the replacement text and
the input after the match. -/
def matchVec (k : Nat) (l : List Char) : Option (List Char × List Char) :=
  if l.head? = some '[' ∧ l.tail.head? = some '\n' then
    match matchGroups k l.tail.tail with
    | none => none
    | some (ns, u) =>
      if (dropSp u).head? = some ']' then some (mkRepl ns, (dropSp u).tail)
      else none
  else none

/-- `re.sub`'s scan with explicit fuel: try a match at every position
from the left; on a match emit the replacement and resume after the
matched text. -/
def subF (ma : List Char → Option (List Char × List Char)) :
    Nat → List Char → List Char
  | 0, l => l
  | _ + 1, [] => []
  | fuel + 1, c :: cs =>
    match ma (c :: cs) with
    | some (r, rest) => r ++ subF ma fuel rest
    | none => c :: subF ma fuel cs

/-- `re.sub pattern replacement` on the whole input (fuel = length
always suffices because a match consumes at least one character). -/
def subM (ma : List Char → Option (List Char × List Char))
    (l : List Char) : List Char :=
  subF ma l.length l

/-- The two substitutions of `scene_from_blend.py` lines 115-117 in
source order: first the 2-vector collapse, then the 3-vector one. -/
def compactVectors (l : List Char) : List Char :=
  subM (matchVec 3) (subM (matchVec 2) l)

/-- The language of `number_pattern`: optional minus sign, a nonempty
digit run, an optional dot followed by a nonempty digit run. -/
def numCore (m : List Char) : Bool :=
  let ds := m.takeWhile Char.isDigit
  let r := m.dropWhile Char.isDigit
  !ds.isEmpty &&
    (r.isEmpty ||
      ((r.head? == some '.') && !r.tail.isEmpty && r.tail.all Char.isDigit))

/-- `numForm n` holds exactly when `n` is in the language of
`number_pattern`. -/
def numForm (n : List Char) : Bool :=
  if n.head? = some '-' then numCore n.tail else numCore n

/-- No position of `l` begins an occurrence of the `k`-vector
pattern. -/
def inertM (k : Nat) (l : List Char) : Prop :=
  ∀ i, matchVec k (l.drop i) = none

/-- `k` spaces of indentation. -/
def spacesN (k : Nat) : List Char := List.replicate k ' '

lemma multiply_quats_swap {α : Type} [CommRing α] (a b : Quat α) :
    multiply_quats a b = hamiltonMul b a := by
  ext <;> simp [multiply_quats, hamiltonMul] <;> ring

lemma rotate_quat_eq_hamiltonRotate {α : Type} [CommRing α] (v : Vec3 α) (q : Quat α) :
    rotate_quat v q = hamiltonRotate q v := by
  ext <;> simp [rotate_quat, hamiltonRotate, multiply_quats, hamiltonMul, conjQuat] <;> ring

lemma rotate_quat_idQuat {α : Type} [CommRing α] (v : Vec3 α) :
    rotate_quat v idQuat = v := by
  ext <;> simp [rotate_quat, multiply_quats, idQuat]

lemma parseLine_error_swap (l : List Char) (m m2 : Mesh) (e : PyError)
    (h : parseLine m l = .error e) : parseLine m2 l = .error e := by
  unfold parseLine at h ⊢
  rcases hs : pySplit l with _ | ⟨t, rest⟩
  · simp [hs] at h ⊢
    exact h
  · simp only [hs] at h ⊢
    by_cases hv : t = ['v']
    · cases hq : parseVertexTokens rest
      · simp [hv, hq] at h ⊢
        exact h
      · simp [hv, hq] at h
    · by_cases hf : t = ['f']
      · cases hq : faceIndices (rest.take 3)
        · simp [hv, hf, hq] at h ⊢
          exact h
        · simp [hv, hf, hq] at h
      · simp [hv, hf] at h

lemma parseLines_not_ok_of_err (lines : List (List Char)) (l : List Char)
    (hl : l ∈ lines) (e : PyError) (herr : parseLine initMesh l = .error e) :
    ∀ m : Mesh, isOkE (parseLines m lines) = false := by
  induction lines with
  | nil => cases hl
  | cons l0 ls ih =>
    intro m
    rcases List.mem_cons.mp hl with rfl | hmem
    · have h2 := parseLine_error_swap l initMesh m e herr
      simp [parseLines, h2, isOkE]
    · cases hp : parseLine m l0
      · simp [parseLines, hp, isOkE]
      · simpa [parseLines, hp] using ih hmem _

lemma parseVertexTokens_short_or_bad (rest : List (List Char))
    (h : rest.length < 3 ∨ ∃ t ∈ rest.take 3, pyFloat t = none) :
    ∃ e, parseVertexTokens rest = .error e := by
  match rest with
  | [] => exact ⟨.indexError, rfl⟩
  | [t1] =>
    cases hp : pyFloat t1
    · exact ⟨.valueError, by simp [parseVertexTokens, hp]⟩
    · exact ⟨.indexError, by simp [parseVertexTokens, hp]⟩
  | [t1, t2] =>
    cases hp1 : pyFloat t1
    · exact ⟨.valueError, by simp [parseVertexTokens, hp1]⟩
    · cases hp2 : pyFloat t2
      · exact ⟨.valueError, by simp [parseVertexTokens, hp1, hp2]⟩
      · exact ⟨.indexError, by simp [parseVertexTokens, hp1, hp2]⟩
  | t1 :: t2 :: t3 :: rest4 =>
    rcases h with hlen | ⟨t, ht, hnone⟩
    · simp at hlen
      omega
    · cases hp1 : pyFloat t1
      · exact ⟨.valueError, by simp [parseVertexTokens, hp1]⟩
      · cases hp2 : pyFloat t2
        · exact ⟨.valueError, by simp [parseVertexTokens, hp1, hp2]⟩
        · cases hp3 : pyFloat t3
          · exact ⟨.valueError, by simp [parseVertexTokens, hp1, hp2, hp3]⟩
          · exfalso
            simp [List.take] at ht
            rcases ht with rfl | rfl | rfl <;> simp_all

lemma faceFromLines_cons (l0 : List Char) (lines : List (List Char)) (f : List ℤ)
    (h : faceFromLines lines f) : faceFromLines (l0 :: lines) f := by
  obtain ⟨l, hl, h1, h2⟩ := h
  exact ⟨l, List.mem_cons_of_mem _ hl, h1, h2⟩

lemma parseLines_spec (lines : List (List Char)) :
    ∀ m0 m : Mesh, parseLines m0 lines = .ok m →
      m.vertices.length = m0.vertices.length + countV lines ∧
      m.faces.length = m0.faces.length + countF lines ∧
      ∀ f ∈ m.faces, f ∈ m0.faces ∨ faceFromLines lines f := by
  induction lines with
  | nil =>
    intro m0 m h
    simp [parseLines] at h
    subst h
    exact ⟨by simp [countV], by simp [countF], fun f hf => Or.inl hf⟩
  | cons l ls ih =>
    intro m0 m h
    cases hp : parseLine m0 l with
    | error e => simp [parseLines, hp] at h
    | ok m1 =>
      simp only [parseLines, hp] at h
      obtain ⟨h1, h2, h3⟩ := ih m1 m h
      unfold parseLine at hp
      rcases hs : pySplit l with _ | ⟨t, rest⟩
      · simp [hs] at hp
      · simp only [hs] at hp
        by_cases hv : t = ['v']
        · cases hq : parseVertexTokens rest with
          | error e => simp [hv, hq] at hp
          | ok v =>
            simp [hv, hq] at hp
            have hcv : countV (l :: ls) = countV ls + 1 := by
              simp [countV, List.countP_cons, hs, hv]
            have hcf : countF (l :: ls) = countF ls := by
              simp [countF, List.countP_cons, hs, hv]
            refine ⟨?_, ?_, ?_⟩
            · rw [h1, ← hp]
              simp [hcv]
              omega
            · rw [h2, ← hp, hcf]
            · intro f hf
              rcases h3 f hf with hmem | hfrom
              · rw [← hp] at hmem
                exact Or.inl hmem
              · exact Or.inr (faceFromLines_cons _ _ _ hfrom)
        · by_cases hf : t = ['f']
          · cases hq : faceIndices (rest.take 3) with
            | none => simp [hv, hf, hq] at hp
            | some zs =>
              simp [hv, hf, hq] at hp
              have hcv : countV (l :: ls) = countV ls := by
                simp [countV, List.countP_cons, hs, hv]
              have hcf : countF (l :: ls) = countF ls + 1 := by
                simp [countF, List.countP_cons, hs, hf]
              refine ⟨?_, ?_, ?_⟩
              · rw [h1, ← hp, hcv]
              · rw [h2, ← hp, hcf]
                simp
                omega
              · intro f2 hf2
                rcases h3 f2 hf2 with hmem | hfrom
                · rw [← hp] at hmem
                  simp at hmem
                  rcases hmem with hmem | rfl
                  · exact Or.inl hmem
                  · refine Or.inr ⟨l, List.mem_cons_self _ _, ?_, ?_⟩
                    · simp [hs, hf]
                    · simp [hs, hq]
                · exact Or.inr (faceFromLines_cons _ _ _ hfrom)
          · simp [hv, hf] at hp
            have hcv : countV (l :: ls) = countV ls := by
              simp [countV, List.countP_cons, hs, hv]
            have hcf : countF (l :: ls) = countF ls := by
              simp [countF, List.countP_cons, hs, hf]
            refine ⟨by rw [h1, ← hp, hcv], by rw [h2, ← hp, hcf], ?_⟩
            intro f2 hf2
            rcases h3 f2 hf2 with hmem | hfrom
            · rw [← hp] at hmem
              exact Or.inl hmem
            · exact Or.inr (faceFromLines_cons _ _ _ hfrom)

lemma faceIndices_mem (ts : List (List Char)) (zs : List ℤ)
    (h : faceIndices ts = some zs) :
    ∀ i ∈ zs, ∃ t ∈ ts, ∃ z : ℤ, pyInt t = some z ∧ i = z - 1 := by
  induction ts generalizing zs with
  | nil =>
    simp [faceIndices] at h
    subst h
    simp
  | cons t ts ih =>
    rw [faceIndices] at h
    cases hp : pyInt t with
    | none => simp [hp] at h
    | some z =>
      cases hq : faceIndices ts with
      | none => simp [hp, hq] at h
      | some zs2 =>
        simp [hp, hq] at h
        subst h
        intro i hi
        rcases List.mem_cons.mp hi with rfl | hi2
        · exact ⟨t, List.mem_cons_self _ _, z, hp, rfl⟩
        · obtain ⟨t2, ht2, z2, hz2, rfl⟩ := ih zs2 hq i hi2
          exact ⟨t2, List.mem_cons_of_mem _ ht2, z2, hz2, rfl⟩

lemma takeWhile_append_cons (p : Char → Bool) (a : List Char) (c : Char)
    (t : List Char) (ha : ∀ x ∈ a, p x = true) (hc : p c = false) :
    (a ++ c :: t).takeWhile p = a ∧ (a ++ c :: t).dropWhile p = c :: t := by
  induction a with
  | nil => simp [List.takeWhile_cons, List.dropWhile_cons, hc]
  | cons x xs ih =>
    have hx : p x = true := ha x (by simp)
    have ih2 := ih fun y hy => ha y (by simp [hy])
    simp [List.takeWhile_cons, List.dropWhile_cons, hx, ih2.1, ih2.2]

lemma takeWhile_all (p : Char → Bool) (a : List Char)
    (ha : ∀ x ∈ a, p x = true) :
    a.takeWhile p = a ∧ a.dropWhile p = [] := by
  induction a with
  | nil => simp
  | cons x xs ih =>
    have hx : p x = true := ha x (by simp)
    have ih2 := ih fun y hy => ha y (by simp [hy])
    simp [List.takeWhile_cons, List.dropWhile_cons, hx, ih2.1, ih2.2]

lemma mem_takeWhile_p (p : Char → Bool) (l : List Char) (x : Char)
    (hx : x ∈ l.takeWhile p) : p x = true := by
  induction l with
  | nil => simp at hx
  | cons c cs ih =>
    rw [List.takeWhile_cons] at hx
    by_cases hc : p c = true
    · simp [hc] at hx
      rcases hx with rfl | hx2
      · exact hc
      · exact ih hx2
    · rw [if_neg hc] at hx
      simp at hx

lemma isEmpty_false_of_ne_nil {l : List Char} (h : l ≠ []) : l.isEmpty = false := by
  cases l
  · exact absurd rfl h
  · rfl

lemma digit_ne_dash {c : Char} (h : Char.isDigit c = true) : c ≠ '-' := by
  intro rfl2
  subst rfl2
  simp [Char.isDigit] at h

lemma dot_not_digit : Char.isDigit '.' = false := by decide

lemma matchNumCore_build (ds fp : List Char) (hds : ds ≠ [])
    (hd : ∀ x ∈ ds, Char.isDigit x = true)
    (hfp : fp = [] ∨ ∃ fs, fp = '.' :: fs ∧ fs ≠ [] ∧ ∀ x ∈ fs, Char.isDigit x = true)
    (c : Char) (t : List Char) (hc1 : Char.isDigit c = false) (hc2 : c ≠ '.') :
    matchNumCore ((ds ++ fp) ++ c :: t) = some (ds ++ fp, c :: t) := by
  have hdse := isEmpty_false_of_ne_nil hds
  rcases hfp with rfl | ⟨fs, rfl, hfs, hfsd⟩
  · have h1 := takeWhile_append_cons Char.isDigit ds c t hd hc1
    simp only [List.append_nil] at *
    simp [matchNumCore, h1.1, h1.2, hdse, hc2]
  · have hl : (ds ++ '.' :: fs) ++ c :: t = ds ++ '.' :: (fs ++ c :: t) := by simp
    have h1 := takeWhile_append_cons Char.isDigit ds '.' (fs ++ c :: t) hd dot_not_digit
    have h2 := takeWhile_append_cons Char.isDigit fs c t hfsd hc1
    have hfse := isEmpty_false_of_ne_nil hfs
    rw [hl]
    simp [matchNumCore, h1.1, h1.2, h2.1, h2.2, hdse, hfse]

lemma numCore_shape (m : List Char) (h : numCore m = true) :
    ∃ ds fp, m = ds ++ fp ∧ ds ≠ [] ∧ (∀ x ∈ ds, Char.isDigit x = true) ∧
      (fp = [] ∨ ∃ fs, fp = '.' :: fs ∧ fs ≠ [] ∧ ∀ x ∈ fs, Char.isDigit x = true) := by
  unfold numCore at h
  simp only [Bool.and_eq_true, Bool.or_eq_true, Bool.not_eq_true'] at h
  obtain ⟨hds, hrest⟩ := h
  refine ⟨m.takeWhile Char.isDigit, m.dropWhile Char.isDigit,
    (List.takeWhile_append_dropWhile Char.isDigit m).symm, ?_, ?_, ?_⟩
  · intro hnil
    rw [hnil] at hds
    simp at hds
  · exact fun x hx => mem_takeWhile_p _ _ _ hx
  · rcases hrest with hemp | hdot
    · left
      exact List.isEmpty_iff.mp hemp
    · right
      simp only [Bool.and_eq_true, beq_iff_eq, Bool.not_eq_true'] at hdot
      obtain ⟨⟨hhead, htne⟩, hall⟩ := hdot
      rcases hr : m.dropWhile Char.isDigit with _ | ⟨a, r⟩
      · rw [hr] at hhead
        simp at hhead
      · rw [hr] at hhead htne hall
        simp at hhead
        subst hhead
        refine ⟨r, rfl, ?_, ?_⟩
        · simp at htne
          exact htne
        · intro x hx
          simp [List.all_eq_true] at hall
          exact hall x hx

lemma numForm_shape (n : List Char) (h : numForm n = true) :
    ∃ sgn ds fp, n = sgn ++ (ds ++ fp) ∧ (sgn = [] ∨ sgn = ['-']) ∧ ds ≠ [] ∧
      (∀ x ∈ ds, Char.isDigit x = true) ∧
      (fp = [] ∨ ∃ fs, fp = '.' :: fs ∧ fs ≠ [] ∧ ∀ x ∈ fs, Char.isDigit x = true) := by
  unfold numForm at h
  by_cases hh : n.head? = some '-'
  · rw [if_pos hh] at h
    obtain ⟨ds, fp, hm, hds, hd, hfp⟩ := numCore_shape _ h
    rcases hn : n with _ | ⟨a, m⟩
    · rw [hn] at hh
      simp at hh
    · rw [hn] at hh hm
      simp at hh
      subst hh
      have hm2 : m = ds ++ fp := by simpa using hm
      exact ⟨['-'], ds, fp, by simp [hm2], Or.inr rfl, hds, hd, hfp⟩
  · rw [if_neg hh] at h
    obtain ⟨ds, fp, hm, hds, hd, hfp⟩ := numCore_shape _ h
    exact ⟨[], ds, fp, by simp [hm], Or.inl rfl, hds, hd, hfp⟩

lemma matchNum_build (n : List Char) (hn : numForm n = true) (c : Char)
    (t : List Char) (hc1 : Char.isDigit c = false) (hc2 : c ≠ '.') :
    matchNum (n ++ c :: t) = some (n, c :: t) := by
  obtain ⟨sgn, ds, fp, rfl, hsgn, hds, hd, hfp⟩ := numForm_shape n hn
  rcases hsgn with rfl | rfl
  · simp only [List.nil_append]
    have hhead : ((ds ++ fp) ++ c :: t).head? ≠ some '-' := by
      rcases hds2 : ds with _ | ⟨d, ds2⟩
      · exact absurd hds2 hds
      · have hdd : Char.isDigit d = true := hd d (by simp [hds2])
        simp [hds2, digit_ne_dash hdd]
    rw [matchNum, if_neg hhead]
    exact matchNumCore_build ds fp hds hd hfp c t hc1 hc2
  · have hl : (['-'] ++ (ds ++ fp)) ++ c :: t = '-' :: ((ds ++ fp) ++ c :: t) := by simp
    rw [hl, matchNum]
    simp only [List.head?_cons, if_pos rfl, List.tail_cons]
    rw [matchNumCore_build ds fp hds hd hfp c t hc1 hc2]
    simp

lemma numCore_digits (ds : List Char) (hds : ds ≠ [])
    (hd : ∀ x ∈ ds, Char.isDigit x = true) : numCore ds = true := by
  have h1 := takeWhile_all Char.isDigit ds hd
  simp [numCore, h1.1, h1.2, isEmpty_false_of_ne_nil hds]

lemma numCore_dotted (ds fs : List Char) (hds : ds ≠ [])
    (hd : ∀ x ∈ ds, Char.isDigit x = true) (hfs : fs ≠ [])
    (hfsd : ∀ x ∈ fs, Char.isDigit x = true) :
    numCore (ds ++ '.' :: fs) = true := by
  have h1 := takeWhile_append_cons Char.isDigit ds '.' fs hd dot_not_digit
  simp [numCore, h1.1, h1.2, isEmpty_false_of_ne_nil hds,
    isEmpty_false_of_ne_nil hfs, List.all_eq_true]
  exact fun x hx => hfsd x hx

lemma matchNumCore_inv (l n rest : List Char) (h : matchNumCore l = some (n, rest)) :
    l = n ++ rest ∧ n ≠ [] ∧ numCore n = true ∧
      (∀ c ∈ n, c = '.' ∨ Char.isDigit c = true) ∧
      ∃ d nx, n = d :: nx ∧ Char.isDigit d = true := by
  unfold matchNumCore at h
  by_cases hds : (l.takeWhile Char.isDigit).isEmpty
  · rw [if_pos hds] at h
    simp at h
  · rw [if_neg hds] at h
    have hl := List.takeWhile_append_dropWhile Char.isDigit l
    have hdall : ∀ x ∈ l.takeWhile Char.isDigit, Char.isDigit x = true :=
      fun x hx => mem_takeWhile_p _ _ _ hx
    have hdsne : l.takeWhile Char.isDigit ≠ [] := by
      intro hnil
      rw [hnil] at hds
      simp at hds
    have hplain : some (l.takeWhile Char.isDigit, l.dropWhile Char.isDigit) =
        some (n, rest) →
        l = n ++ rest ∧ n ≠ [] ∧ numCore n = true ∧
          (∀ c ∈ n, c = '.' ∨ Char.isDigit c = true) ∧
          ∃ d nx, n = d :: nx ∧ Char.isDigit d = true := by
      intro heq
      simp only [Option.some.injEq, Prod.mk.injEq] at heq
      obtain ⟨rfl, rfl⟩ := heq
      refine ⟨hl.symm, hdsne, numCore_digits _ hdsne hdall,
        fun c hc => Or.inr (hdall c hc), ?_⟩
      rcases hn : l.takeWhile Char.isDigit with _ | ⟨d, nx⟩
      · exact absurd hn hdsne
      · exact ⟨d, nx, rfl, hdall d (by rw [hn]; simp)⟩
    by_cases hdot : (l.dropWhile Char.isDigit).head? = some '.'
    · rw [if_pos hdot] at h
      by_cases hfs : ((l.dropWhile Char.isDigit).tail.takeWhile Char.isDigit).isEmpty
      · rw [if_pos hfs] at h
        exact hplain h
      · rw [if_neg hfs] at h
        simp only [Option.some.injEq, Prod.mk.injEq] at h
        obtain ⟨rfl, rfl⟩ := h
        have hfsall : ∀ x ∈ (l.dropWhile Char.isDigit).tail.takeWhile Char.isDigit,
            Char.isDigit x = true := fun x hx => mem_takeWhile_p _ _ _ hx
        have hfsne : (l.dropWhile Char.isDigit).tail.takeWhile Char.isDigit ≠ [] := by
          intro hnil
          rw [hnil] at hfs
          simp at hfs
        have hr1 : l.dropWhile Char.isDigit =
            '.' :: ((l.dropWhile Char.isDigit).tail.takeWhile Char.isDigit ++
              (l.dropWhile Char.isDigit).tail.dropWhile Char.isDigit) := by
          rcases hr : l.dropWhile Char.isDigit with _ | ⟨a, r⟩
          · rw [hr] at hdot
            simp at hdot
          · rw [hr] at hdot
            simp at hdot
            subst hdot
            simp [List.takeWhile_append_dropWhile]
        refine ⟨?_, by simp, ?_, ?_, ?_⟩
        · conv_lhs => rw [← hl]
          rw [hr1]
          simp
        · exact numCore_dotted _ _ hdsne hdall hfsne hfsall
        · intro c hc
          simp at hc
          rcases hc with hc | rfl | hc
          · exact Or.inr (hdall c hc)
          · exact Or.inl rfl
          · exact Or.inr (hfsall c hc)
        · rcases hn : l.takeWhile Char.isDigit with _ | ⟨d, nx⟩
          · exact absurd hn hdsne
          · exact ⟨d, nx ++ '.' :: (l.dropWhile Char.isDigit).tail.takeWhile Char.isDigit,
              by simp [hn], hdall d (by simp [hn])⟩
    · rw [if_neg hdot] at h
      exact hplain h

lemma matchNum_inv (l n rest : List Char) (h : matchNum l = some (n, rest)) :
    l = n ++ rest ∧ n ≠ [] ∧ numForm n = true ∧
      (∀ c ∈ n, c = '-' ∨ c = '.' ∨ Char.isDigit c = true) ∧
      ∃ d nx, n = d :: nx ∧ (d = '-' ∨ Char.isDigit d = true) := by
  unfold matchNum at h
  by_cases hh : l.head? = some '-'
  · rw [if_pos hh] at h
    cases hc : matchNumCore l.tail with
    | none =>
      rw [hc] at h
      simp at h
    | some p =>
      obtain ⟨n0, rest0⟩ := p
      rw [hc] at h
      simp only [Option.some.injEq, Prod.mk.injEq] at h
      obtain ⟨rfl, rfl⟩ := h
      obtain ⟨hd1, hd2, hd3, hd4, d, nx, hd5, hd6⟩ := matchNumCore_inv _ _ _ hc
      have hlt : l = '-' :: l.tail := by
        rcases hln : l with _ | ⟨a, r⟩
        · rw [hln] at hh
          simp at hh
        · rw [hln] at hh
          simp at hh
          subst hh
          rfl
      refine ⟨by rw [hlt, hd1]; rfl, by simp, ?_, ?_, ⟨'-', n0, rfl, Or.inl rfl⟩⟩
      · simp [numForm, hd3]
      · intro c hc2
        simp at hc2
        rcases hc2 with rfl | hc2
        · exact Or.inl rfl
        · exact Or.inr (hd4 c hc2)
  · rw [if_neg hh] at h
    obtain ⟨hd1, hd2, hd3, hd4, d, nx, hd5, hd6⟩ := matchNumCore_inv _ _ _ h
    refine ⟨hd1, hd2, ?_, fun c hc2 => Or.inr (hd4 c hc2), ⟨d, nx, hd5, Or.inr hd6⟩⟩
    have hnd : n.head? ≠ some '-' := by
      rw [hd5]
      simp
      exact digit_ne_dash hd6
    simp [numForm, if_neg hnd, hd3]

lemma dropSp_append_cons (sp : List Char) (hsp : ∀ x ∈ sp, x = ' ')
    (c : Char) (t : List Char) (hc : c ≠ ' ') :
    dropSp (sp ++ c :: t) = c :: t := by
  have h1 := takeWhile_append_cons (fun x => x = ' ') sp c t
    (fun x hx => by simp [hsp x hx]) (by simp [hc])
  simpa [dropSp] using h1.2

lemma numForm_head_not (n : List Char) (hn : numForm n = true) :
    ∃ d nx, n = d :: nx ∧ (d = '-' ∨ Char.isDigit d = true) := by
  obtain ⟨sgn, ds, fp, rfl, hsgn, hds, hd, hfp⟩ := numForm_shape n hn
  rcases hsgn with rfl | rfl
  · rcases hdn : ds with _ | ⟨d, ds2⟩
    · exact absurd hdn hds
    · exact ⟨d, ds2 ++ fp, by simp [hdn], Or.inr (hd d (by simp [hdn]))⟩
  · exact ⟨'-', ds ++ fp, by simp, Or.inl rfl⟩

lemma signDigit_ne_space {d : Char} (h : d = '-' ∨ Char.isDigit d = true) :
    d ≠ ' ' := by
  rcases h with rfl | h
  · decide
  · exact fun hc => by
      rw [hc] at h
      simp [Char.isDigit] at h

lemma matchGroups_one_build (sp : List Char) (hsp : ∀ x ∈ sp, x = ' ')
    (n : List Char) (hn : numForm n = true) (t : List Char) :
    matchGroups 1 (sp ++ n ++ '\n' :: t) = some ([n], t) := by
  obtain ⟨d, nx, rfl, hd⟩ := numForm_head_not n hn
  have hdrop : dropSp (sp ++ (d :: nx) ++ '\n' :: t) = (d :: nx) ++ '\n' :: t := by
    rw [List.append_assoc]
    exact dropSp_append_cons sp hsp d (nx ++ '\n' :: t) (signDigit_ne_space hd)
  have hnum := matchNum_build (d :: nx) hn '\n' t (by decide) (by decide)
  simp only [List.cons_append, List.append_assoc] at hdrop hnum
  simp [matchGroups, hdrop, hnum]

lemma matchGroups_one_fail (sp : List Char) (hsp : ∀ x ∈ sp, x = ' ')
    (n : List Char) (hn : numForm n = true) (c : Char) (t : List Char)
    (hc1 : Char.isDigit c = false) (hc2 : c ≠ '.') (hc3 : c ≠ '\n') :
    matchGroups 1 (sp ++ n ++ c :: t) = none := by
  obtain ⟨d, nx, rfl, hd⟩ := numForm_head_not n hn
  have hdrop : dropSp (sp ++ (d :: nx) ++ c :: t) = (d :: nx) ++ c :: t := by
    rw [List.append_assoc]
    exact dropSp_append_cons sp hsp d (nx ++ c :: t) (signDigit_ne_space hd)
  have hnum := matchNum_build (d :: nx) hn c t hc1 hc2
  simp only [matchGroups, hdrop, hnum, List.head?_cons]
  rw [if_neg (by simp [hc3])]

lemma matchGroups_succ_build (k : Nat) (sp : List Char) (hsp : ∀ x ∈ sp, x = ' ')
    (n : List Char) (hn : numForm n = true) (t : List Char) :
    matchGroups (k + 2) (sp ++ n ++ ',' :: '\n' :: t) =
      (match matchGroups (k + 1) t with
       | none => none
       | some (ns, r3) => some (n :: ns, r3)) := by
  obtain ⟨d, nx, rfl, hd⟩ := numForm_head_not n hn
  have hdrop : dropSp (sp ++ (d :: nx) ++ ',' :: '\n' :: t) =
      (d :: nx) ++ ',' :: '\n' :: t := by
    rw [List.append_assoc]
    exact dropSp_append_cons sp hsp d (nx ++ ',' :: '\n' :: t) (signDigit_ne_space hd)
  have hnum := matchNum_build (d :: nx) hn ',' ('\n' :: t) (by decide) (by decide)
  simp only [List.cons_append, List.append_assoc] at hdrop hnum
  simp [matchGroups, hdrop, hnum]

lemma takeSp_spaces (l : List Char) : ∀ x ∈ takeSp l, x = ' ' := by
  intro x hx
  have := mem_takeWhile_p (fun c => c = ' ') l x (by simpa [takeSp] using hx)
  simpa using this

lemma takeSp_dropSp (l : List Char) : takeSp l ++ dropSp l = l :=
  List.takeWhile_append_dropWhile _ l

lemma numChar_ne_bracket {c : Char} (h : c = '-' ∨ c = '.' ∨ Char.isDigit c = true) :
    c ≠ '[' := by
  rcases h with rfl | rfl | h
  · decide
  · decide
  · intro hc
    rw [hc] at h
    simp [Char.isDigit] at h

lemma numChar_ne_newline {c : Char} (h : c = '-' ∨ c = '.' ∨ Char.isDigit c = true) :
    c ≠ '\n' := by
  rcases h with rfl | rfl | h
  · decide
  · decide
  · intro hc
    rw [hc] at h
    simp [Char.isDigit] at h

lemma noBracket_append {a b : List Char} (ha : ∀ c ∈ a, c ≠ '[')
    (hb : ∀ c ∈ b, c ≠ '[') : ∀ c ∈ a ++ b, c ≠ '[' := by
  intro c hc
  rcases List.mem_append.mp hc with h | h
  · exact ha c h
  · exact hb c h

lemma noBracket_spaces (l : List Char) : ∀ c ∈ takeSp l, c ≠ '[' := by
  intro c hc
  rw [takeSp_spaces l c hc]
  decide

lemma matchGroups_inv (k : Nat) :
    ∀ l ns rest, matchGroups k l = some (ns, rest) →
    ∃ g, l = g ++ rest ∧ (∀ c ∈ g, c ≠ '[') ∧ ns ≠ [] ∧
      (∀ n ∈ ns, numForm n = true) ∧
      (∀ n ∈ ns, ∀ c ∈ n, c = '-' ∨ c = '.' ∨ Char.isDigit c = true) ∧
      ∀ t2, matchGroups k (g ++ t2) = some (ns, t2) := by
  induction k using Nat.strong_induction_on with
  | _ k IH =>
    match k with
    | 0 =>
      intro l ns rest h
      simp [matchGroups] at h
    | 1 =>
      intro l ns rest h
      rw [matchGroups] at h
      cases hm : matchNum (dropSp l) with
      | none =>
        rw [hm] at h
        simp at h
      | some p =>
        obtain ⟨n, r⟩ := p
        rw [hm] at h
        dsimp only at h
        by_cases hnl : r.head? = some '\n'
        · rw [if_pos hnl] at h
          simp only [Option.some.injEq, Prod.mk.injEq] at h
          obtain ⟨rfl, rfl⟩ := h
          obtain ⟨hd1, hd2, hd3, hd4, _, _, _, _⟩ := matchNum_inv _ _ _ hm
          have hr : r = '\n' :: r.tail := by
            rcases hrr : r with _ | ⟨a, rr⟩
            · rw [hrr] at hnl
              simp at hnl
            · rw [hrr] at hnl
              simp at hnl
              subst hnl
              rfl
          refine ⟨takeSp l ++ n ++ ['\n'], ?_, ?_, by simp, ?_, ?_, ?_⟩
          · conv_lhs => rw [← takeSp_dropSp l]
            rw [hd1]
            conv_lhs => rw [hr]
            simp
          · refine noBracket_append (noBracket_append (noBracket_spaces l) ?_) ?_
            · exact fun c hc => numChar_ne_bracket (hd4 c hc)
            · intro c hc
              simp at hc
              subst hc
              decide
          · intro n2 hn2
            simp at hn2
            subst hn2
            exact hd3
          · intro n2 hn2
            simp at hn2
            subst hn2
            exact hd4
          · intro t2
            have hb := matchGroups_one_build (takeSp l) (takeSp_spaces l) n hd3 t2
            simpa [List.append_assoc] using hb
        · rw [if_neg hnl] at h
          simp at h
    | (k + 2) =>
      intro l ns rest h
      rw [matchGroups] at h
      cases hm : matchNum (dropSp l) with
      | none =>
        rw [hm] at h
        simp at h
      | some p =>
        obtain ⟨n, r⟩ := p
        rw [hm] at h
        dsimp only at h
        by_cases hcond : r.head? = some ',' ∧ r.tail.head? = some '\n'
        · rw [if_pos hcond] at h
          cases hg : matchGroups (k + 1) r.tail.tail with
          | none =>
            rw [hg] at h
            simp at h
          | some q =>
            obtain ⟨ns2, r3⟩ := q
            rw [hg] at h
            simp only [Option.some.injEq, Prod.mk.injEq] at h
            obtain ⟨rfl, rfl⟩ := h
            obtain ⟨hd1, hd2, hd3, hd4, _, _, _, _⟩ := matchNum_inv _ _ _ hm
            obtain ⟨g2, hG1, hG2, hG3, hG4, hG5, hG6⟩ :=
              IH (k + 1) (by omega) r.tail.tail ns2 r3 hg
            have hr : r = ',' :: '\n' :: r.tail.tail := by
              obtain ⟨hc1, hc2⟩ := hcond
              rcases hrr : r with _ | ⟨a, rr⟩
              · rw [hrr] at hc1
                simp at hc1
              · rw [hrr] at hc1 hc2
                simp at hc1
                subst hc1
                rcases hrr2 : rr with _ | ⟨b, rr2⟩
                · rw [hrr2] at hc2
                  simp at hc2
                · rw [hrr2] at hc2
                  simp at hc2
                  subst hc2
                  rfl
            refine ⟨takeSp l ++ n ++ ',' :: '\n' :: g2, ?_, ?_, by simp, ?_, ?_, ?_⟩
            · conv_lhs => rw [← takeSp_dropSp l]
              rw [hd1]
              conv_lhs => rw [hr, hG1]
              simp
            · refine noBracket_append (noBracket_append (noBracket_spaces l) ?_) ?_
              · exact fun c hc => numChar_ne_bracket (hd4 c hc)
              · intro c hc
                rcases List.mem_cons.mp hc with rfl | hc2
                · decide
                · rcases List.mem_cons.mp hc2 with rfl | hc3
                  · decide
                  · exact hG2 c hc3
            · intro n2 hn2
              rcases List.mem_cons.mp hn2 with rfl | hn3
              · exact hd3
              · exact hG4 n2 hn3
            · intro n2 hn2
              rcases List.mem_cons.mp hn2 with rfl | hn3
              · exact hd4
              · exact hG5 n2 hn3
            · intro t2
              have hb := matchGroups_succ_build k (takeSp l) (takeSp_spaces l) n hd3 (g2 ++ t2)
              have hassoc : (takeSp l ++ n ++ ',' :: '\n' :: g2) ++ t2 =
                  takeSp l ++ n ++ ',' :: '\n' :: (g2 ++ t2) := by simp
              rw [hassoc, hb, hG6 t2]
        · rw [if_neg hcond] at h
          simp at h

lemma matchVec_nil (k : Nat) : matchVec k [] = none := by
  simp [matchVec]

lemma matchVec_not_bracket (k : Nat) (c : Char) (cs : List Char) (h : c ≠ '[') :
    matchVec k (c :: cs) = none := by
  simp [matchVec, h]

lemma matchVec_not_newline (k : Nat) (c : Char) (cs : List Char) (h : c ≠ '\n') :
    matchVec k ('[' :: c :: cs) = none := by
  simp [matchVec, h]

lemma joinNums_cons (n : List Char) (ns : List (List Char)) :
    ∃ t, joinNums (n :: ns) = n ++ t ∧ ∀ c ∈ t, c = ',' ∨ c = ' ' ∨ c ∈ joinNums ns := by
  cases ns with
  | nil => exact ⟨[], by simp [joinNums], by simp⟩
  | cons m ms =>
    refine ⟨',' :: ' ' :: joinNums (m :: ms), rfl, ?_⟩
    intro c hc
    rcases List.mem_cons.mp hc with rfl | hc2
    · exact Or.inl rfl
    · rcases List.mem_cons.mp hc2 with rfl | hc3
      · exact Or.inr (Or.inl rfl)
      · exact Or.inr (Or.inr hc3)

lemma joinNums_chars (ns : List (List Char))
    (h : ∀ n ∈ ns, ∀ c ∈ n, c = '-' ∨ c = '.' ∨ Char.isDigit c = true) :
    ∀ c ∈ joinNums ns, c = '-' ∨ c = '.' ∨ Char.isDigit c = true ∨ c = ',' ∨ c = ' ' := by
  induction ns with
  | nil => simp [joinNums]
  | cons n ns ih =>
    obtain ⟨t, ht, htc⟩ := joinNums_cons n ns
    rw [ht]
    intro c hc
    rcases List.mem_append.mp hc with hc2 | hc2
    · rcases h n (by simp) c hc2 with h3 | h3 | h3
      · exact Or.inl h3
      · exact Or.inr (Or.inl h3)
      · exact Or.inr (Or.inr (Or.inl h3))
    · rcases htc c hc2 with h3 | h3 | h3
      · exact Or.inr (Or.inr (Or.inr (Or.inl h3)))
      · exact Or.inr (Or.inr (Or.inr (Or.inr h3)))
      · exact ih (fun n2 hn2 => h n2 (by simp [hn2])) c h3

lemma replChar_ne {c : Char}
    (h : c = '-' ∨ c = '.' ∨ Char.isDigit c = true ∨ c = ',' ∨ c = ' ' ∨ c = ']') :
    c ≠ '[' ∧ c ≠ '\n' := by
  rcases h with rfl | rfl | h | rfl | rfl | rfl
  · decide
  · decide
  · exact ⟨numChar_ne_bracket (Or.inr (Or.inr h)),
      numChar_ne_newline (Or.inr (Or.inr h))⟩
  · decide
  · decide
  · decide

lemma matchVec_inv (k : Nat) (l r rest : List Char)
    (h : matchVec k l = some (r, rest)) :
    ∃ cb, l = '[' :: '\n' :: (cb ++ rest) ∧ (∀ c ∈ cb, c ≠ '[') ∧
      (∀ t2, matchVec k ('[' :: '\n' :: (cb ++ t2)) = some (r, t2)) ∧
      ∃ d rb, r = '[' :: d :: rb ∧
        (∀ c ∈ d :: rb, c ≠ '[' ∧ c ≠ '\n') := by
  unfold matchVec at h
  by_cases hc : l.head? = some '[' ∧ l.tail.head? = some '\n'
  · rw [if_pos hc] at h
    have hl : l = '[' :: '\n' :: l.tail.tail := by
      obtain ⟨hc1, hc2⟩ := hc
      rcases hll : l with _ | ⟨a, ll⟩
      · rw [hll] at hc1
        simp at hc1
      · rw [hll] at hc1 hc2
        simp at hc1
        subst hc1
        rcases hll2 : ll with _ | ⟨b, ll2⟩
        · rw [hll2] at hc2
          simp at hc2
        · rw [hll2] at hc2
          simp at hc2
          subst hc2
          rfl
    cases hg : matchGroups k l.tail.tail with
    | none =>
      rw [hg] at h
      simp at h
    | some q =>
      obtain ⟨ns, u⟩ := q
      rw [hg] at h
      dsimp only at h
      by_cases hb : (dropSp u).head? = some ']'
      · rw [if_pos hb] at h
        simp only [Option.some.injEq, Prod.mk.injEq] at h
        obtain ⟨rfl, rfl⟩ := h
        obtain ⟨g, hG1, hG2, hG3, hG4, hG5, hG6⟩ := matchGroups_inv k _ _ _ hg
        have hu : dropSp u = ']' :: (dropSp u).tail := by
          rcases huu : dropSp u with _ | ⟨a, uu⟩
          · rw [huu] at hb
            simp at hb
          · rw [huu] at hb
            simp at hb
            subst hb
            rfl
        refine ⟨g ++ takeSp u ++ [']'], ?_, ?_, ?_, ?_⟩
        · conv_lhs => rw [hl, hG1]
          conv_lhs => rw [← takeSp_dropSp u]
          conv_lhs => rw [hu]
          simp
        · refine noBracket_append (noBracket_append hG2 (noBracket_spaces u)) ?_
          intro c hcm
          simp at hcm
          subst hcm
          decide
        · intro t2
          have hassoc : (g ++ takeSp u ++ [']']) ++ t2 = g ++ (takeSp u ++ ']' :: t2) := by
            simp
          rw [hassoc]
          have hd : dropSp (takeSp u ++ ']' :: t2) = ']' :: t2 :=
            dropSp_append_cons (takeSp u) (takeSp_spaces u) ']' t2 (by decide)
          unfold matchVec
          rw [if_pos ⟨by simp, by simp⟩]
          simp only [List.tail_cons, hG6 (takeSp u ++ ']' :: t2), hd]
          simp
        · rcases ns with _ | ⟨n1, ns2⟩
          · exact absurd rfl hG3
          · obtain ⟨d, nx, hn1, _⟩ := numForm_head_not n1 (hG4 n1 (by simp))
            obtain ⟨t, hjt, _⟩ := joinNums_cons n1 ns2
            refine ⟨d, nx ++ t ++ [']'], ?_, ?_⟩
            · unfold mkRepl
              rw [hjt, hn1]
              simp
            · intro c hcm
              have hmem : c ∈ joinNums (n1 :: ns2) ++ [']'] := by
                rw [hjt, hn1]
                simp only [List.cons_append, List.append_assoc, List.mem_cons,
                  List.mem_append, List.mem_singleton] at hcm ⊢
                tauto
              rcases List.mem_append.mp hmem with hm2 | hm2
              · have h5 := joinNums_chars _ hG5 c hm2
                refine replChar_ne ?_
                tauto
              · simp at hm2
                subst hm2
                exact ⟨by decide, by decide⟩
      · rw [if_neg hb] at h
        simp at h
  · rw [if_neg hc] at h
    simp at h

lemma matchVec_consume (k : Nat) (l r rest : List Char)
    (h : matchVec k l = some (r, rest)) : rest.length + 2 ≤ l.length := by
  obtain ⟨cb, hl, _, _, _⟩ := matchVec_inv k l r rest h
  rw [hl]
  simp

lemma subF_fuel_eq (k : Nat) :
    ∀ n f1 f2 (l : List Char), l.length ≤ n → l.length ≤ f1 → l.length ≤ f2 →
      subF (matchVec k) f1 l = subF (matchVec k) f2 l := by
  intro n
  induction n with
  | zero =>
    intro f1 f2 l hn _ _
    have : l = [] := by
      cases l
      · rfl
      · simp at hn
    subst this
    cases f1 <;> cases f2 <;> rfl
  | succ n ih =>
    intro f1 f2 l hn h1 h2
    cases l with
    | nil => cases f1 <;> cases f2 <;> rfl
    | cons c cs =>
      match f1, f2 with
      | f1 + 1, f2 + 1 =>
        simp only [subF]
        cases hm : matchVec k (c :: cs) with
        | some p =>
          obtain ⟨r, rest⟩ := p
          dsimp only
          have hcons := matchVec_consume k (c :: cs) r rest hm
          simp only [List.length_cons] at hn h1 h2 hcons
          rw [ih f1 f2 rest (by omega) (by omega) (by omega)]
        | none =>
          dsimp only
          simp only [List.length_cons] at hn h1 h2
          rw [ih f1 f2 cs (by omega) (by omega) (by omega)]

lemma subM_nil (k : Nat) : subM (matchVec k) [] = [] := rfl

lemma subM_cons_none (k : Nat) (c : Char) (cs : List Char)
    (h : matchVec k (c :: cs) = none) :
    subM (matchVec k) (c :: cs) = c :: subM (matchVec k) cs := by
  unfold subM
  simp only [List.length_cons, subF, h]

lemma subM_cons_some (k : Nat) (c : Char) (cs : List Char) (r rest : List Char)
    (h : matchVec k (c :: cs) = some (r, rest)) :
    subM (matchVec k) (c :: cs) = r ++ subM (matchVec k) rest := by
  unfold subM
  simp only [List.length_cons, subF, h]
  have hcons := matchVec_consume k (c :: cs) r rest h
  simp only [List.length_cons] at hcons
  rw [subF_fuel_eq k rest.length cs.length rest.length rest (le_refl _)
    (by omega) (le_refl _)]

lemma inertM_nil (k : Nat) : inertM k [] := by
  intro i
  simp [matchVec_nil]

lemma inertM_tail (k : Nat) (c : Char) (cs : List Char)
    (h : inertM k (c :: cs)) : inertM k cs := by
  intro i
  have := h (i + 1)
  simpa using this

lemma inertM_cons (k : Nat) (c : Char) (cs : List Char)
    (h0 : matchVec k (c :: cs) = none) (h : inertM k cs) : inertM k (c :: cs) := by
  intro i
  cases i with
  | zero => exact h0
  | succ j => simpa using h j

lemma inertM_drop (k : Nat) (l : List Char) (h : inertM k l) (n : Nat) :
    inertM k (l.drop n) := by
  intro i
  rw [List.drop_drop]
  exact h (n + i)

lemma subM_eq_self_of_inert (k : Nat) :
    ∀ l, inertM k l → subM (matchVec k) l = l := by
  intro l
  induction l with
  | nil => intro _; rfl
  | cons c cs ih =>
    intro h
    rw [subM_cons_none k c cs (h 0)]
    rw [ih (inertM_tail k c cs h)]

lemma pristine_bound (k : Nat) :
    ∀ n l p q, l.length ≤ n → subM (matchVec k) l = p ++ q → (∀ c ∈ p, c ≠ '[') →
      ∃ q0, l = p ++ q0 := by
  intro n
  induction n with
  | zero =>
    intro l p q hn hs hp
    have hl : l = [] := by
      cases l
      · rfl
      · simp at hn
    subst hl
    rw [subM_nil] at hs
    have : p = [] := by
      cases p
      · rfl
      · simp at hs
    subst this
    exact ⟨[], rfl⟩
  | succ n ih =>
    intro l p q hn hs hp
    cases l with
    | nil =>
      rw [subM_nil] at hs
      have : p = [] := by
        cases p
        · rfl
        · simp at hs
      subst this
      exact ⟨[], rfl⟩
    | cons c cs =>
      cases hm : matchVec k (c :: cs) with
      | some pr =>
        obtain ⟨r, rest⟩ := pr
        rw [subM_cons_some k c cs r rest hm] at hs
        obtain ⟨cb, _, _, _, d, rb, hrshape, _⟩ := matchVec_inv k _ _ _ hm
        cases p with
        | nil => exact ⟨c :: cs, rfl⟩
        | cons p0 p1 =>
          exfalso
          rw [hrshape] at hs
          simp only [List.cons_append] at hs
          have : p0 = '[' := by
            have := congrArg List.head? hs
            simpa using this.symm
          exact hp p0 (by simp) this
      | none =>
        rw [subM_cons_none k c cs hm] at hs
        cases p with
        | nil => exact ⟨c :: cs, rfl⟩
        | cons p0 p1 =>
          simp only [List.cons_append] at hs
          have hc0 : c = p0 := by
            have := congrArg List.head? hs
            simpa using this
          have hs2 : subM (matchVec k) cs = p1 ++ q := by
            have := congrArg List.tail hs
            simpa using this
          simp only [List.length_cons] at hn
          obtain ⟨q0, hq0⟩ := ih cs p1 q (by omega) hs2
            (fun c2 hc2 => hp c2 (by simp [hc2]))
          exact ⟨q0, by rw [hc0, hq0]; rfl⟩

lemma inert_subM (k1 k2 : Nat) :
    ∀ n l, l.length ≤ n → (k1 = k2 ∨ inertM k1 l) →
      inertM k1 (subM (matchVec k2) l) := by
  intro n
  induction n with
  | zero =>
    intro l hn _
    have hl : l = [] := by
      cases l
      · rfl
      · simp at hn
    subst hl
    rw [subM_nil]
    exact inertM_nil k1
  | succ n ih =>
    intro l hn hdisj
    cases l with
    | nil =>
      rw [subM_nil]
      exact inertM_nil k1
    | cons c cs =>
      simp only [List.length_cons] at hn
      cases hm : matchVec k2 (c :: cs) with
      | some pr =>
        obtain ⟨r, rest⟩ := pr
        rw [subM_cons_some k2 c cs r rest hm]
        obtain ⟨cb, hl, hcb, htrans, d, rb, hrshape, hrchars⟩ := matchVec_inv k2 _ _ _ hm
        have hconsume := matchVec_consume k2 (c :: cs) r rest hm
        simp only [List.length_cons] at hconsume
        have hdisj2 : k1 = k2 ∨ inertM k1 rest := by
          rcases hdisj with h | h
          · exact Or.inl h
          · right
            have h2 := inertM_drop k1 (c :: cs) h (cb.length + 2)
            rw [hl] at h2
            have hdr : ('[' :: '\n' :: (cb ++ rest)).drop (cb.length + 2) = rest := by
              rw [show cb.length + 2 = (cb.length + 1) + 1 from rfl,
                List.drop_succ_cons, List.drop_succ_cons, List.drop_left]
            rwa [hdr] at h2
        have hres := ih rest (by omega) hdisj2
        intro i
        by_cases hi : i < r.length
        · rw [List.drop_append_of_le_length (by omega)]
          cases i with
          | zero =>
            rw [hrshape]
            simp only [List.drop_zero, List.cons_append]
            exact matchVec_not_newline k1 d _ (hrchars d (by simp)).2
          | succ j =>
            rw [hrshape, List.drop_succ_cons]
            rcases hdj : (d :: rb).drop j with _ | ⟨e, es⟩
            · simpa using hres 0
            · have he : e ∈ d :: rb := List.drop_subset j (d :: rb) (by rw [hdj]; simp)
              simp only [List.cons_append]
              exact matchVec_not_bracket k1 e _ (hrchars e he).1
        · obtain ⟨j, rfl⟩ : ∃ j, i = r.length + j := ⟨i - r.length, by omega⟩
          rw [List.drop_append]
          exact hres j
      | none =>
        rw [subM_cons_none k2 c cs hm]
        have hdisj2 : k1 = k2 ∨ inertM k1 cs := by
          rcases hdisj with h | h
          · exact Or.inl h
          · exact Or.inr (inertM_tail k1 c cs h)
        have hres := ih cs (by omega) hdisj2
        refine inertM_cons k1 c _ ?_ hres
        cases hmm : matchVec k1 (c :: subM (matchVec k2) cs) with
        | none => rfl
        | some pr2 =>
          exfalso
          obtain ⟨r2, rest2⟩ := pr2
          obtain ⟨cb2, hl2, hcb2, htrans2, _⟩ := matchVec_inv k1 _ _ _ hmm
          have hc : c = '[' := by
            have h3 := congrArg List.head? hl2
            simpa using h3
          have hsub : subM (matchVec k2) cs = ('\n' :: cb2) ++ rest2 := by
            have h3 := congrArg List.tail hl2
            simpa using h3
          have hchars : ∀ c2 ∈ '\n' :: cb2, c2 ≠ '[' := by
            intro c2 hc2
            rcases List.mem_cons.mp hc2 with rfl | hc3
            · decide
            · exact hcb2 c2 hc3
          obtain ⟨q0, hq0⟩ := pristine_bound k2 cs.length cs ('\n' :: cb2) rest2
            (le_refl _) hsub hchars
          have htr := htrans2 q0
          have hccs : c :: cs = '[' :: '\n' :: (cb2 ++ q0) := by
            rw [hc, hq0]
            simp
          rw [← hccs] at htr
          rcases hdisj with heq | hin
          · subst heq
            rw [hm] at htr
            simp at htr
          · have h0 := hin 0
            simp only [List.drop_zero] at h0
            rw [h0] at htr
            simp at htr

lemma spacesN_spaces (k : Nat) : ∀ x ∈ spacesN k, x = ' ' := by
  intro x hx
  exact List.eq_of_mem_replicate hx

lemma numForm_chars (n : List Char) (hn : numForm n = true) :
    ∀ c ∈ n, c = '-' ∨ c = '.' ∨ Char.isDigit c = true := by
  obtain ⟨sgn, ds, fp, rfl, hsgn, hds, hd, hfp⟩ := numForm_shape n hn
  intro c hc
  rcases List.mem_append.mp hc with hc2 | hc2
  · rcases hsgn with rfl | rfl
    · simp at hc2
    · simp at hc2
      subst hc2
      exact Or.inl rfl
  · rcases List.mem_append.mp hc2 with hc3 | hc3
    · exact Or.inr (Or.inr (hd c hc3))
    · rcases hfp with rfl | ⟨fs, rfl, hfs, hfsd⟩
      · simp at hc3
      · rcases List.mem_cons.mp hc3 with rfl | hc4
        · exact Or.inr (Or.inl rfl)
        · exact Or.inr (Or.inr (hfsd c hc4))

lemma noBracket_num (n : List Char) (hn : numForm n = true) : ∀ c ∈ n, c ≠ '[' :=
  fun c hc => numChar_ne_bracket (numForm_chars n hn c hc)

lemma noBracket_cons {c : Char} {t : List Char} (hc : c ≠ '[')
    (ht : ∀ x ∈ t, x ≠ '[') : ∀ x ∈ c :: t, x ≠ '[' := by
  intro x hx
  rcases List.mem_cons.mp hx with rfl | hx2
  · exact hc
  · exact ht x hx2

lemma noBracket_spacesN (k : Nat) : ∀ c ∈ spacesN k, c ≠ '[' := by
  intro c hc
  rw [spacesN_spaces k c hc]
  decide

lemma inertM_of_nobracket_tail (k : Nat) (c : Char) (cs : List Char)
    (h0 : matchVec k (c :: cs) = none) (hcs : ∀ x ∈ cs, x ≠ '[') :
    inertM k (c :: cs) := by
  intro i
  cases i with
  | zero => exact h0
  | succ j =>
    simp only [List.drop_succ_cons]
    rcases hdj : cs.drop j with _ | ⟨e, es⟩
    · exact matchVec_nil k
    · exact matchVec_not_bracket k e es (hcs e (List.drop_subset j cs (by rw [hdj]; simp)))

lemma matchVec_head_build (k : Nat) (gbody : List Char) (ns : List (List Char))
    (spc : List Char) (hspc : ∀ x ∈ spc, x = ' ')
    (hg : matchGroups k gbody = some (ns, spc ++ ']' :: [])) :
    matchVec k ('[' :: '\n' :: gbody) = some (mkRepl ns, []) := by
  unfold matchVec
  rw [if_pos ⟨by simp, by simp⟩]
  simp only [List.tail_cons, hg]
  rw [dropSp_append_cons spc hspc ']' [] (by decide)]
  simp

lemma inertM_mkRepl (k : Nat) (n1 : List Char) (ns2 : List (List Char))
    (hnf : ∀ n ∈ n1 :: ns2, numForm n = true) : inertM k (mkRepl (n1 :: ns2)) := by
  obtain ⟨d, nx, hn1, hd⟩ := numForm_head_not n1 (hnf n1 (by simp))
  obtain ⟨t, hjt, htc⟩ := joinNums_cons n1 ns2
  have hchars := joinNums_chars (n1 :: ns2)
    (fun n hn c hc => numForm_chars n (hnf n hn) c hc)
  have hshape : mkRepl (n1 :: ns2) = '[' :: d :: (nx ++ t ++ [']']) := by
    unfold mkRepl
    rw [hjt, hn1]
    simp
  rw [hshape]
  refine inertM_of_nobracket_tail k '[' _ ?_ ?_
  · refine matchVec_not_newline k d _ ?_
    rcases hd with rfl | hdig
    · decide
    · exact numChar_ne_newline (Or.inr (Or.inr hdig))
  · intro x hx
    have hmem : x ∈ joinNums (n1 :: ns2) ++ [']'] := by
      rw [hjt, hn1]
      simp only [List.cons_append, List.append_assoc, List.mem_cons, List.mem_append,
        List.mem_singleton] at hx ⊢
      tauto
    rcases List.mem_append.mp hmem with hm2 | hm2
    · have h5 := hchars x hm2
      exact (replChar_ne (by tauto)).1
    · simp at hm2
      subst hm2
      decide

lemma noBracket_closing (kc : Nat) : ∀ c ∈ spacesN kc ++ [']'], c ≠ '[' := by
  refine noBracket_append (noBracket_spacesN kc) ?_
  intro c hc
  simp at hc
  subst hc
  decide

/-! ## Claims about rotation, camera, defaults and transforms -/

/-- C1, counterexample.  At the unit quaternion `q = (3/5, 4/5, 0, 0)`
(a rotation about the x-axis) and `v = (0, 1, 0)`, `rotate_quat`
returns `(0, -7/25, 24/25)`, which is `v` rotated forward by the
orientation `q` represents, and differs from `v` rotated by the inverse
orientation `(0, -7/25, -24/25)`.  So the result does not equal `v`
rotated by the inverse of the orientation `q` represents. -/
theorem C1_counterexample :
    (let q : Quat ℚ := ⟨3/5, 4/5, 0, 0⟩
     let v : Vec3 ℚ := ⟨0, 1, 0⟩
     q.w ^ 2 + q.x ^ 2 + q.y ^ 2 + q.z ^ 2 = 1 ∧
     rotate_quat v q = ⟨0, -7/25, 24/25⟩ ∧
     rotate_quat v q ≠ hamiltonRotate (conjQuat q) v) := by
  refine ⟨by norm_num, ?_, ?_⟩
  · norm_num [rotate_quat, multiply_quats, Vec3.mk.injEq]
  · norm_num [rotate_quat, multiply_quats, hamiltonRotate, hamiltonMul,
      conjQuat, Vec3.mk.injEq]

/-- C1, amended.  `rotate_quat` does conjugate `q` and multiply the
conjugate by the pure quaternion `(0,v)` and then by `q`, but under the
source's `multiply_quats`, which is the Hamilton product with swapped
arguments.  Consequently the sandwich equals the Hamilton sandwich
`q * (0,v) * conj q`, i.e. the result is `v` rotated BY the orientation
`q` represents (for unit `q`), not by its inverse. -/
theorem C1_amended (a b q : Quat ℚ) (v : Vec3 ℚ) :
    multiply_quats a b = hamiltonMul b a ∧
    rotate_quat v q = hamiltonRotate q v :=
  ⟨multiply_quats_swap a b, rotate_quat_eq_hamiltonRotate v q⟩

/-- C5.  With the identity quaternion the derived camera satisfies
`look_at = origin + T (0,0,-1)` and `up = T (0,1,0)` exactly for every
configured transform `T` and position; and with position `(0,0,0)`,
lens angle 45 degrees expressed in radians, and the identity transform,
the derived camera is `origin = (0,0,0)`, `look_at = (0,0,-1)`,
`up = (0,1,0)`, `field_of_view = 45`. -/
theorem C5_camera_identity :
    (∀ (T : Vec3 ℝ → Vec3 ℝ) (position : Vec3 ℝ) (lens : ℝ) (film : ℤ × ℤ),
      (deriveCamera T position idQuat lens film).look_at =
          add_vec (T position) (T ⟨0, 0, -1⟩) ∧
      (deriveCamera T position idQuat lens film).up = T ⟨0, 1, 0⟩) ∧
    deriveCamera id ⟨0, 0, 0⟩ idQuat (45 * Real.pi / 180) (1920, 1080) =
      ⟨⟨0, 0, 0⟩, ⟨0, 0, -1⟩, ⟨0, 1, 0⟩, 45, (1920, 1080)⟩ := by
  constructor
  · intro T position lens film
    constructor <;> simp [deriveCamera, rotate_quat_idQuat]
  · have hpi : Real.pi ≠ 0 := Real.pi_ne_zero
    ext <;>
      simp [deriveCamera, rotate_quat_idQuat, add_vec, degreesOf] <;>
      field_simp

/-- C9, counterexample.  When the background is unavailable the
substituted default is `(0.8, 0.8, 0.8)`, a light gray, which is not
the neutral mid-gray `(0.5, 0.5, 0.5)` the spec names. -/
theorem C9_counterexample :
    getBackgroundColor none = ⟨4/5, 4/5, 4/5⟩ ∧
    getBackgroundColor none ≠ specMidGray := by
  refine ⟨rfl, ?_⟩
  norm_num [getBackgroundColor, specMidGray, Vec3.mk.injEq]

/-- C9, amended.  With no usable input both lookups substitute a
documented default and never fail: the diffuse default is the neutral
mid-gray `(0.5, 0.5, 0.5)`, while the background default is the light
gray `(0.8, 0.8, 0.8)` (not mid-gray); with usable input both return it
unchanged. -/
theorem C9_amended :
    getPrimaryDiffuseColor none = specMidGray ∧
    getBackgroundColor none = ⟨4/5, 4/5, 4/5⟩ ∧
    ∀ c : Vec3 ℚ, getPrimaryDiffuseColor (some c) = c ∧
      getBackgroundColor (some c) = c := by
  refine ⟨rfl, rfl, fun c => ⟨rfl, rfl⟩⟩

/-- C10.  The two coordinate transforms used in this repository — the
swap of the second and third components in `xzy_to_xyz` and the
negation of the first component in the parse loops — are each their own
inverse, so applying the transform and then its inverse (the transform
itself) restores every vector exactly (hence well within any
tolerance). -/
theorem C10_transform_involutions (v : Vec3 ℚ) :
    xzy_to_xyz (xzy_to_xyz v) = v ∧ vertexNegation (vertexNegation v) = v := by
  refine ⟨by ext <;> simp [xzy_to_xyz], by ext <;> simp [vertexNegation]⟩

/-! ## Claims about the parse loop -/

/-- C4, code_bug evidence.  A blank line makes the parse loop evaluate
`tokens[0]` on an empty token list, raising `IndexError`, contradicting
the required "ignore blank lines"; a non-blank line whose first token is
neither `v` nor `f` (normals, comments, groups, texture coordinates) is
skipped without error and contributes nothing. -/
theorem C4_blank_line_behavior :
    parseLine initMesh [] = .error .indexError ∧
    parseLines initMesh ["".toList, "v 0 0 0".toList] = .error .indexError ∧
    parseLine initMesh "   ".toList = .error .indexError ∧
    parseLine initMesh "vn 1 2 3".toList = .ok initMesh ∧
    parseLine initMesh "vt 0.5 0.5".toList = .ok initMesh ∧
    parseLine initMesh "# comment".toList = .ok initMesh ∧
    parseLine initMesh "g group".toList = .ok initMesh := by
  decide

/-- C6, counterexample.  The canonical input
`v 0 0 0 / v 1 0 0 / v 0 1 0 / f 1 2 3` does not parse to vertices
`[[0,0,0],[1,0,0],[0,1,0]]`: the loop negates the first coordinate of
every vertex at parse time, so the second vertex is `[-1,0,0]`. -/
theorem C6_counterexample :
    parseLines initMesh
        ["v 0 0 0".toList, "v 1 0 0".toList, "v 0 1 0".toList, "f 1 2 3".toList] =
      .ok ⟨[⟨0, 0, 0⟩, ⟨-1, 0, 0⟩, ⟨0, 1, 0⟩], [[0, 1, 2]]⟩ ∧
    ([⟨0, 0, 0⟩, ⟨-1, 0, 0⟩, ⟨0, 1, 0⟩] : List (Vec3 ℚ)) ≠
      [⟨0, 0, 0⟩, ⟨1, 0, 0⟩, ⟨0, 1, 0⟩] := by
  constructor
  · decide
  · decide

/-- C6, amended.  A vertex record appends the next 3 tokens parsed as
floats with the first coordinate negated (the configured coordinate
adjustment is applied at parse time, not deferred): the appended vertex
is `[-x, y, z]`, and the canonical input parses to vertices
`[[0,0,0],[-1,0,0],[0,1,0]]` and faces `[[0,1,2]]`. -/
theorem C6_amended (m : Mesh) (line : List Char) (a b c : List Char)
    (rest : List (List Char)) (x y z : ℚ)
    (hsplit : pySplit line = ['v'] :: a :: b :: c :: rest)
    (ha : pyFloat a = some x) (hb : pyFloat b = some y) (hc : pyFloat c = some z) :
    parseLine m line = .ok ⟨m.vertices ++ [⟨-x, y, z⟩], m.faces⟩ := by
  simp [parseLine, hsplit, parseVertexTokens, ha, hb, hc]

/-- Witness for C6 at the line `v 1 2 3`. -/
theorem C6_witness :
    pySplit "v 1 2 3".toList = [['v'], ['1'], ['2'], ['3']] ∧
    pyFloat ['1'] = some 1 ∧ pyFloat ['2'] = some 2 ∧ pyFloat ['3'] = some 3 ∧
    parseLine initMesh "v 1 2 3".toList = .ok ⟨[⟨-1, 2, 3⟩], []⟩ :=
  ⟨by decide, by decide, by decide, by decide,
    C6_amended initMesh _ ['1'] ['2'] ['3'] [] 1 2 3 (by decide) (by decide)
      (by decide) (by decide)⟩

/-- C3, counterexample.  An `f` record with fewer than 3 index tokens
does not abort the conversion: `f 1 2` is accepted and produces a face
with only two indices. -/
theorem C3_counterexample :
    parseLines initMesh ["f 1 2".toList] = .ok ⟨[], [[0, 1]]⟩ ∧
    parseLines initMesh ["f".toList] = .ok ⟨[], [[]]⟩ := by
  constructor
  · decide
  · decide

/-- C3, amended.  Parsing aborts with an exception (the spec's
`FormatError`) whenever a `v` line has fewer than 3 tokens after the
tag or one of its first 3 argument tokens fails float conversion.  An
`f` line with fewer than 3 index tokens, by contrast, does not fail:
the loop slices `tokens[1:4]` and appends a face with fewer than 3
indices (see the counterexample). -/
theorem C3_amended (lines : List (List Char))
    (h : ∃ l ∈ lines, (pySplit l).head? = some ['v'] ∧
        ((pySplit l).length < 4 ∨ ∃ t ∈ (pySplit l).tail.take 3, pyFloat t = none)) :
    ∀ m : Mesh, isOkE (parseLines m lines) = false := by
  obtain ⟨l, hl, hhead, hbad⟩ := h
  rcases hs : pySplit l with _ | ⟨t, rest⟩
  · rw [hs] at hhead
    simp at hhead
  · rw [hs] at hhead
    have ht : t = ['v'] := by simpa using hhead
    subst ht
    rw [hs] at hbad
    have hbad2 : rest.length < 3 ∨ ∃ t2 ∈ rest.take 3, pyFloat t2 = none := by
      simp only [List.length_cons, List.tail_cons] at hbad
      rcases hbad with hbad | hbad
      · exact Or.inl (by omega)
      · exact Or.inr hbad
    obtain ⟨e, he⟩ := parseVertexTokens_short_or_bad rest hbad2
    have herr : parseLine initMesh l = .error e := by
      simp [parseLine, hs, he]
    exact parseLines_not_ok_of_err lines l hl e herr

/-- Witness for C3 at the single-line input `v 1`. -/
theorem C3_witness :
    (∃ l ∈ ["v 1".toList], (pySplit l).head? = some ['v'] ∧
        ((pySplit l).length < 4 ∨ ∃ t ∈ (pySplit l).tail.take 3, pyFloat t = none)) ∧
    isOkE (parseLines initMesh ["v 1".toList]) = false :=
  ⟨by decide, C3_amended ["v 1".toList] (by decide) initMesh⟩

/-- C2, counterexample.  Face indices are not range-checked: the input
`v 0 0 0 / f 5 5 5` parses successfully to a mesh with 1 vertex and the
face `[4,4,4]`, whose indices are not in `[0, 1)`. -/
theorem C2_counterexample :
    parseLines initMesh ["v 0 0 0".toList, "f 5 5 5".toList] =
      .ok ⟨[⟨0, 0, 0⟩], [[4, 4, 4]]⟩ ∧
    countV ["v 0 0 0".toList, "f 5 5 5".toList] = 1 ∧
    ¬ ((4 : ℤ) < 1) := by
  refine ⟨by decide, by decide, by decide⟩

/-- C2, amended.  If the parse loop succeeds, the mesh has exactly one
vertex per `v` record and one face per `f` record; each parsed face
index is the corresponding input integer minus 1, so all indices lie in
`[0, N)` provided every index token of every `f` record is an integer
in `[1, N]` (the loop itself performs no such range check — see the
counterexample). -/
theorem C2_amended (lines : List (List Char)) (m : Mesh)
    (h : parseLines initMesh lines = .ok m) :
    m.vertices.length = countV lines ∧ m.faces.length = countF lines ∧
    ((∀ l ∈ lines, (pySplit l).head? = some ['f'] →
        ∀ t ∈ (pySplit l).tail.take 3, ∀ z : ℤ, pyInt t = some z →
          1 ≤ z ∧ z ≤ (countV lines : ℤ)) →
      ∀ f ∈ m.faces, ∀ i ∈ f, 0 ≤ i ∧ i < (countV lines : ℤ)) := by
  obtain ⟨h1, h2, h3⟩ := parseLines_spec lines initMesh m h
  refine ⟨by simpa [initMesh] using h1, by simpa [initMesh] using h2, ?_⟩
  intro hin f hf i hi
  rcases h3 f hf with hmem | ⟨l, hl, hhead, hidx⟩
  · simp [initMesh] at hmem
  · obtain ⟨t, ht, z, hz, rfl⟩ := faceIndices_mem _ _ hidx i hi
    have hrange := hin l hl hhead t ht z hz
    omega

/-- Witness for C2 at the input `v 0 0 0 / f 1 1 1`. -/
theorem C2_witness :
    (⟨[⟨(0 : ℚ), 0, 0⟩], [[0, 0, 0]]⟩ : Mesh).vertices.length =
      countV ["v 0 0 0".toList, "f 1 1 1".toList] :=
  (C2_amended ["v 0 0 0".toList, "f 1 1 1".toList] ⟨[⟨0, 0, 0⟩], [[0, 0, 0]]⟩
    (by decide)).1

/-- C8.  The compaction pass (the 2-vector rewrite followed by the
3-vector rewrite) is idempotent on every text: its output contains no
occurrence of either pattern, so a second application changes
nothing. -/
theorem C8_compaction_idempotent (l : List Char) :
    compactVectors (compactVectors l) = compactVectors l := by
  have i3 : inertM 3 (compactVectors l) :=
    inert_subM 3 3 _ _ (le_refl _) (Or.inl rfl)
  have i2 : inertM 2 (compactVectors l) := by
    refine inert_subM 2 3 _ _ (le_refl _) (Or.inr ?_)
    exact inert_subM 2 2 _ _ (le_refl _) (Or.inl rfl)
  show subM (matchVec 3) (subM (matchVec 2) (compactVectors l)) = compactVectors l
  rw [subM_eq_self_of_inert 2 _ i2, subM_eq_self_of_inert 3 _ i3]

/-- C7, amended.  A pretty-printed 2- or 3-vector whose elements match
the plain decimal pattern `-?[0-9]+(\.[0-9]+)?` is collapsed by the
pass onto one line, with each element's text copied verbatim; elements
outside that pattern (e.g. exponent notation) are not matched, and such
vectors stay multi-line (see the counterexample). -/
theorem C7_amended (k1 k2 k3 kc : Nat) (n1 n2 n3 : List Char)
    (h1 : numForm n1 = true) (h2 : numForm n2 = true) (h3 : numForm n3 = true) :
    compactVectors ('[' :: '\n' :: (spacesN k1 ++ n1 ++ ',' :: '\n' ::
        (spacesN k2 ++ n2 ++ ',' :: '\n' :: (spacesN k3 ++ n3 ++ '\n' ::
          (spacesN kc ++ [']']))))) =
      '[' :: (n1 ++ ',' :: ' ' :: (n2 ++ ',' :: ' ' :: n3)) ++ [']'] ∧
    compactVectors ('[' :: '\n' :: (spacesN k1 ++ n1 ++ ',' :: '\n' ::
        (spacesN k2 ++ n2 ++ '\n' :: (spacesN kc ++ [']'])))) =
      '[' :: (n1 ++ ',' :: ' ' :: n2) ++ [']'] := by
  have hmk3 : mkRepl [n1, n2, n3] =
      '[' :: (n1 ++ ',' :: ' ' :: (n2 ++ ',' :: ' ' :: n3)) ++ [']'] := by
    simp [mkRepl, joinNums]
  have hmk2 : mkRepl [n1, n2] = '[' :: (n1 ++ ',' :: ' ' :: n2) ++ [']'] := by
    simp [mkRepl, joinNums]
  constructor
  · -- triple case
    have hg1 : matchGroups 1 (spacesN k3 ++ n3 ++ '\n' :: (spacesN kc ++ [']'])) =
        some ([n3], spacesN kc ++ [']']) :=
      matchGroups_one_build (spacesN k3) (spacesN_spaces k3) n3 h3 _
    have hg2 : matchGroups 2 (spacesN k2 ++ n2 ++ ',' :: '\n' ::
        (spacesN k3 ++ n3 ++ '\n' :: (spacesN kc ++ [']']))) =
        some ([n2, n3], spacesN kc ++ [']']) := by
      have hb := matchGroups_succ_build 0 (spacesN k2) (spacesN_spaces k2) n2 h2
        (spacesN k3 ++ n3 ++ '\n' :: (spacesN kc ++ [']']))
      norm_num at hb
      simp only [List.append_assoc] at hg1
      rw [hg1] at hb
      dsimp only at hb
      simpa only [List.append_assoc] using hb
    have hg3 : matchGroups 3 (spacesN k1 ++ n1 ++ ',' :: '\n' ::
        (spacesN k2 ++ n2 ++ ',' :: '\n' :: (spacesN k3 ++ n3 ++ '\n' ::
          (spacesN kc ++ [']'])))) =
        some ([n1, n2, n3], spacesN kc ++ [']']) := by
      have hb := matchGroups_succ_build 1 (spacesN k1) (spacesN_spaces k1) n1 h1
        (spacesN k2 ++ n2 ++ ',' :: '\n' :: (spacesN k3 ++ n3 ++ '\n' ::
          (spacesN kc ++ [']'])))
      norm_num at hb
      simp only [List.append_assoc] at hg2
      rw [hg2] at hb
      dsimp only at hb
      simpa only [List.append_assoc] using hb
    have hv3 : matchVec 3 ('[' :: '\n' :: (spacesN k1 ++ n1 ++ ',' :: '\n' ::
        (spacesN k2 ++ n2 ++ ',' :: '\n' :: (spacesN k3 ++ n3 ++ '\n' ::
          (spacesN kc ++ [']']))))) = some (mkRepl [n1, n2, n3], []) :=
      matchVec_head_build 3 _ [n1, n2, n3] (spacesN kc) (spacesN_spaces kc) hg3
    have hf1 : matchGroups 1 (spacesN k2 ++ n2 ++ ',' :: '\n' ::
        (spacesN k3 ++ n3 ++ '\n' :: (spacesN kc ++ [']']))) = none :=
      matchGroups_one_fail (spacesN k2) (spacesN_spaces k2) n2 h2 ','
        _ (by decide) (by decide) (by decide)
    have hf2 : matchGroups 2 (spacesN k1 ++ n1 ++ ',' :: '\n' ::
        (spacesN k2 ++ n2 ++ ',' :: '\n' :: (spacesN k3 ++ n3 ++ '\n' ::
          (spacesN kc ++ [']'])))) = none := by
      have hb := matchGroups_succ_build 0 (spacesN k1) (spacesN_spaces k1) n1 h1
        (spacesN k2 ++ n2 ++ ',' :: '\n' :: (spacesN k3 ++ n3 ++ '\n' ::
          (spacesN kc ++ [']'])))
      norm_num at hb
      simp only [List.append_assoc] at hf1
      rw [hf1] at hb
      dsimp only at hb
      simpa only [List.append_assoc] using hb
    have hv2 : matchVec 2 ('[' :: '\n' :: (spacesN k1 ++ n1 ++ ',' :: '\n' ::
        (spacesN k2 ++ n2 ++ ',' :: '\n' :: (spacesN k3 ++ n3 ++ '\n' ::
          (spacesN kc ++ [']']))))) = none := by
      unfold matchVec
      rw [if_pos ⟨by simp, by simp⟩]
      simp only [List.tail_cons, hf2]
    have hnb : ∀ x ∈ '\n' :: (spacesN k1 ++ n1 ++ ',' :: '\n' ::
        (spacesN k2 ++ n2 ++ ',' :: '\n' :: (spacesN k3 ++ n3 ++ '\n' ::
          (spacesN kc ++ [']'])))), x ≠ '[' := by
      refine noBracket_cons (by decide) ?_
      refine noBracket_append (noBracket_append (noBracket_spacesN k1)
        (noBracket_num n1 h1)) ?_
      refine noBracket_cons (by decide) ?_
      refine noBracket_cons (by decide) ?_
      refine noBracket_append (noBracket_append (noBracket_spacesN k2)
        (noBracket_num n2 h2)) ?_
      refine noBracket_cons (by decide) ?_
      refine noBracket_cons (by decide) ?_
      refine noBracket_append (noBracket_append (noBracket_spacesN k3)
        (noBracket_num n3 h3)) ?_
      refine noBracket_cons (by decide) ?_
      exact noBracket_closing kc
    have hin2 : inertM 2 ('[' :: '\n' :: (spacesN k1 ++ n1 ++ ',' :: '\n' ::
        (spacesN k2 ++ n2 ++ ',' :: '\n' :: (spacesN k3 ++ n3 ++ '\n' ::
          (spacesN kc ++ [']']))))) :=
      inertM_of_nobracket_tail 2 '[' _ hv2 hnb
    show subM (matchVec 3) (subM (matchVec 2) _) = _
    rw [subM_eq_self_of_inert 2 _ hin2]
    rw [subM_cons_some 3 '[' _ _ [] hv3]
    rw [subM_nil]
    rw [hmk3]
    simp
  · -- double case
    have hg1 : matchGroups 1 (spacesN k2 ++ n2 ++ '\n' :: (spacesN kc ++ [']'])) =
        some ([n2], spacesN kc ++ [']']) :=
      matchGroups_one_build (spacesN k2) (spacesN_spaces k2) n2 h2 _
    have hg2 : matchGroups 2 (spacesN k1 ++ n1 ++ ',' :: '\n' ::
        (spacesN k2 ++ n2 ++ '\n' :: (spacesN kc ++ [']']))) =
        some ([n1, n2], spacesN kc ++ [']']) := by
      have hb := matchGroups_succ_build 0 (spacesN k1) (spacesN_spaces k1) n1 h1
        (spacesN k2 ++ n2 ++ '\n' :: (spacesN kc ++ [']']))
      norm_num at hb
      simp only [List.append_assoc] at hg1
      rw [hg1] at hb
      dsimp only at hb
      simpa only [List.append_assoc] using hb
    have hv2 : matchVec 2 ('[' :: '\n' :: (spacesN k1 ++ n1 ++ ',' :: '\n' ::
        (spacesN k2 ++ n2 ++ '\n' :: (spacesN kc ++ [']'])))) =
        some (mkRepl [n1, n2], []) :=
      matchVec_head_build 2 _ [n1, n2] (spacesN kc) (spacesN_spaces kc) hg2
    have hinrepl : inertM 3 (mkRepl [n1, n2]) :=
      inertM_mkRepl 3 n1 [n2] (by
        intro n hn
        rcases List.mem_cons.mp hn with rfl | hn2
        · exact h1
        · simp at hn2
          subst hn2
          exact h2)
    show subM (matchVec 3) (subM (matchVec 2) _) = _
    rw [subM_cons_some 2 '[' _ _ [] hv2]
    rw [subM_nil, List.append_nil]
    rw [subM_eq_self_of_inert 3 _ hinrepl]
    exact hmk2

/-- C7, counterexample.  The 3-vector `[1e-05, 0.0, 0.0]` pretty-printed
across multiple lines is left unchanged by the compaction pass — still
containing newlines — because `number_pattern` has no exponent form, so
not every multi-line numeric vector of length 3 is rewritten onto a
single line. -/
theorem C7_counterexample :
    compactVectors "[\n    1e-05,\n    0.0,\n    0.0\n]".toList =
      "[\n    1e-05,\n    0.0,\n    0.0\n]".toList ∧
    '\n' ∈ "[\n    1e-05,\n    0.0,\n    0.0\n]".toList :=
  ⟨by decide, by decide⟩

/-- Witness for C7 on the vectors `[1.0, 2.0, 3.0]` and `[1.0, 2.0]`
with indent 4. -/
theorem C7_witness :
    (numForm "1.0".toList = true ∧ numForm "2.0".toList = true ∧
      numForm "3.0".toList = true) ∧
    (compactVectors ('[' :: '\n' :: (spacesN 4 ++ "1.0".toList ++ ',' :: '\n' ::
        (spacesN 4 ++ "2.0".toList ++ ',' :: '\n' :: (spacesN 4 ++ "3.0".toList ++ '\n' ::
          (spacesN 0 ++ [']']))))) =
      '[' :: ("1.0".toList ++ ',' :: ' ' :: ("2.0".toList ++ ',' :: ' ' ::
        "3.0".toList)) ++ [']'] ∧
    compactVectors ('[' :: '\n' :: (spacesN 4 ++ "1.0".toList ++ ',' :: '\n' ::
        (spacesN 4 ++ "2.0".toList ++ '\n' :: (spacesN 0 ++ [']'])))) =
      '[' :: ("1.0".toList ++ ',' :: ' ' :: "2.0".toList) ++ [']']) :=
  ⟨⟨by decide, by decide, by decide⟩,
    C7_amended 4 4 4 0 "1.0".toList "2.0".toList "3.0".toList
      (by decide) (by decide) (by decide)⟩
